import Mathlib

/-!
# xlang/proxy/servers.go: the language-server connection broker

A shallow embedding of `src/xlang/proxy/servers.go`.

* Go strings and byte slices are lists of characters (`Str`); the code only
  inspects them through the ASCII delimiters `=`, `:`, `\n` and through fixed
  ASCII prefixes and suffixes.
* A Go function with side effects is a function `W → result × W` over a world
  `W`; the world is a type parameter, so a theorem that holds for every `W`
  and every behaviour of the operating system holds for the real one.
* An `error` is `Option GoError` (`none` is `nil`); a `(value, error)` pair is
  a pair of options.
* Library functions the code calls but does not define (`strings.ToLower`,
  the `%q` verb, `json.Unmarshal`, `net.DialTimeout`, `os/exec`) are fields of
  the record `Lib`; `traceLib` is a concrete instance used to evaluate the code
  on concrete inputs.
-/

namespace Proxy

/-! ## Strings -/

/-- Go `string` and `[]byte` values. -/
abbrev Str := List Char

/-- The function `strings.HasPrefix`. -/
def HasPrefix : Str → Str → Bool
  | _, [] => true
  | [], _ :: _ => false
  | c :: s, d :: p => c == d && HasPrefix s p

/-- The function `strings.HasSuffix`. -/
def HasSuffix (s suffix : Str) : Bool :=
  HasPrefix s.reverse suffix.reverse

/-- The function `strings.TrimPrefix`: `s` without the leading `p`, or `s`
itself when it does not start with `p`. -/
def TrimPrefix (s p : Str) : Str :=
  if HasPrefix s p then s.drop p.length else s

/-- The function `strings.Contains`, by searching every suffix of `s`. -/
def Contains : Str → Str → Bool
  | [], sub => HasPrefix [] sub
  | c :: s, sub => HasPrefix (c :: s) sub || Contains s sub

/-- The call `bytes.Split(p, sep)` for a one-byte separator: the pieces of `p`
between consecutive separators; there is always at least one piece. -/
def bytesSplit (sep : Char) : Str → List Str
  | [] => [[]]
  | c :: cs =>
    if c = sep then [] :: bytesSplit sep cs
    else
      match bytesSplit sep cs with
      | [] => [[c]]
      | l :: ls => (c :: l) :: ls

/-- The call `strings.SplitN(s, sep, 2)` for a one-byte separator: `s` cut at
the first separator, or `s` alone when it holds none. -/
def SplitN2 (sep : Char) (s : Str) : List Str :=
  if s.contains sep then [s.takeWhile (· != sep), (s.dropWhile (· != sep)).drop 1]
  else [s]

/-! ## Errors and effects -/

/-- Go `error` values the code builds or passes on. -/
inductive GoError where
  /-- The value `&jsonrpc2.Error{Code: code, Message: message}`. -/
  | jsonrpc2 (code : Int) (message : Str)
  /-- The value `fmt.Errorf(...)` with the formatted message. -/
  | errorf (message : Str)
  /-- Any error produced outside this file (network, process, pipe). -/
  | other (message : Str)
  deriving DecidableEq, Repr

/-- The method `Error()` of an error value. -/
def GoError.message : GoError → Str
  | .jsonrpc2 _ m => m
  | .errorf m => m
  | .other m => m

/-- A side-effecting Go call returning `α`. -/
abbrev Act (W : Type) (α : Type) := W → α × W

/-- A `Close`-like call: returns an `error`. -/
abbrev CloseFn (W : Type) := Act W (Option GoError)

/-- An `io.Writer`: `Write(p)` returns `(n, err)`. -/
abbrev Writer (W : Type) := Str → Act W (Nat × Option GoError)

/-! ## prefixWriter -/

/-- The type `prefixWriter` (`pfx` is the field `prefix`). -/
structure prefixWriter (W : Type) where
  w : Writer W
  pfx : Str

/-- The call `fmt.Fprintf(w, "%s%s\n", a, b)`: one `Write` of the formatted
bytes, whose result it returns. -/
def Fprintf_s_s_nl {W : Type} (w : Writer W) (a b : Str) : Act W (Nat × Option GoError) :=
  w (a ++ b ++ ['\n'])

/-- The `for _, line := range lines` loop of `prefixWriter.Write`: `some err`
when a write failed (the loop returns at once), `none` when it ran through. -/
def prefixWriter.writeLines {W : Type} (pw : prefixWriter W) : List Str → Act W (Option GoError)
  | [], s => (none, s)
  | line :: rest, s =>
    if line.length = 0 then pw.writeLines rest s
    else
      match Fprintf_s_s_nl pw.w pw.pfx line s with
      | ((_, some err), s1) => (some err, s1)
      | ((_, none), s1) => pw.writeLines rest s1

/-- The method `(*prefixWriter).Write`. -/
def prefixWriter.Write {W : Type} (pw : prefixWriter W) (p : Str) : Act W (Nat × Option GoError) :=
  fun s =>
    let lines := bytesSplit '\n' p
    match pw.writeLines lines s with
    | (some err, s1) => ((0, some err), s1)
    | (none, s1) => ((p.length, none), s1)

/-- A sink that accepts every write and records it: the world is the list of
writes received so far. -/
def recordingSink : Writer (List Str) :=
  fun b log => ((b.length, none), log ++ [b])

/-- The writes the spec describes for one `Write(p)`: `pfx ++ line ++ "\n"` for
each non-empty piece of `p` split on newlines, in order. -/
def labelledLines (pfx p : Str) : List Str :=
  ((bytesSplit '\n' p).filter (fun l => l ≠ [])).map (fun l => pfx ++ l ++ ['\n'])

/-! ## readWriteCloser -/

/-- An `io.ReadCloser`: `Read` into a buffer of the given length returns the
bytes read and an error. -/
structure ReadCloser (W : Type) where
  Read : Nat → Act W (Str × Option GoError)
  Close : CloseFn W

/-- An `io.WriteCloser`. -/
structure WriteCloser (W : Type) where
  Write : Writer W
  Close : CloseFn W

/-- The type `readWriteCloser`; a nil `otherCloseFunc` is `none`. -/
structure readWriteCloser (W : Type) where
  rc : ReadCloser W
  wc : WriteCloser W
  otherCloseFunc : Option (CloseFn W)

/-- The method `readWriteCloser.Read`. -/
def readWriteCloser.Read {W : Type} (rwc : readWriteCloser W) (n : Nat) :
    Act W (Str × Option GoError) :=
  rwc.rc.Read n

/-- The method `readWriteCloser.Write`. -/
def readWriteCloser.Write {W : Type} (rwc : readWriteCloser W) (p : Str) :
    Act W (Nat × Option GoError) :=
  rwc.wc.Write p

/-- The method `readWriteCloser.Close`. -/
def readWriteCloser.Close {W : Type} (rwc : readWriteCloser W) : CloseFn W :=
  fun s =>
    match rwc.rc.Close s with
    | (some err, s1) => (some err, s1)
    | (none, s1) =>
      match rwc.wc.Close s1 with
      | (some err, s2) => (some err, s2)
      | (none, s2) =>
        match rwc.otherCloseFunc with
        | some f =>
          match f s2 with
          | (some err, s3) => (some err, s3)
          | (none, s3) => (none, s3)
        | none => (none, s2)

/-- The steps a `Close` can perform, for close functions that record their
invocation. -/
inductive CloseStep where
  | readHalf
  | writeHalf
  | teardown
  deriving DecidableEq, Repr

/-- A close function that appends `step` to the trace and returns `result`. -/
def loggedClose (step : CloseStep) (result : Option GoError) : CloseFn (List CloseStep) :=
  fun log => (result, log ++ [step])

/-- A `readWriteCloser` over the trace world whose three close steps return
the given results; `teardown = none` is a nil `otherCloseFunc`. -/
def loggedRWC (e1 e2 : Option GoError) (teardown : Option (Option GoError)) :
    readWriteCloser (List CloseStep) where
  rc := { Read := fun _ log => (([], none), log), Close := loggedClose .readHalf e1 }
  wc := { Write := fun p log => ((p.length, none), log), Close := loggedClose .writeHalf e2 }
  otherCloseFunc := teardown.map (loggedClose .teardown)

/-! ## In-memory pipes -/

/-- A `*io.PipeReader`: the pipe it reads from. -/
structure PipeReader where
  p : Nat
  deriving DecidableEq, Repr

/-- A `*io.PipeWriter`: the pipe it writes to. -/
structure PipeWriter where
  p : Nat
  deriving DecidableEq, Repr

/-- The type `pipeReadWriteCloser`, with its two embedded pointers. -/
structure pipeReadWriteCloser where
  PipeReader : PipeReader
  PipeWriter : PipeWriter
  deriving DecidableEq, Repr

/-- The parts of package `io` the file calls on pipes. -/
structure PipeOps (W : Type) where
  /-- The function `io.Pipe()`. -/
  Pipe : Act W (PipeReader × PipeWriter)
  /-- The method `(*io.PipeReader).Close`. -/
  ReaderClose : PipeReader → CloseFn W
  /-- The method `(*io.PipeWriter).Close`. -/
  WriterClose : PipeWriter → CloseFn W

/-- The method `(*pipeReadWriteCloser).Close`. -/
def pipeReadWriteCloser.Close {W : Type} (io : PipeOps W) (c : pipeReadWriteCloser) :
    CloseFn W :=
  fun s =>
    let (err1, s1) := io.ReaderClose c.PipeReader s
    let (err2, s2) := io.WriterClose c.PipeWriter s1
    match err1 with
    | some e => (some e, s2)
    | none => (err2, s2)

/-- The function `InMemoryPeerConns`. -/
def InMemoryPeerConns {W : Type} (io : PipeOps W) :
    Act W (pipeReadWriteCloser × pipeReadWriteCloser) :=
  fun s =>
    let ((sr, cw), s1) := io.Pipe s
    let ((cr, sw), s2) := io.Pipe s1
    (({ PipeReader := sr, PipeWriter := sw }, { PipeReader := cr, PipeWriter := cw }), s2)

/-- The state of one `io.Pipe`: the writes handed to it and not yet read
(oldest first), and whether each end was closed. A write stays in `chunks`
while its caller is blocked in `Write`; the blocking itself is not modelled. -/
structure PipeState where
  chunks : List Str
  rclosed : Bool
  wclosed : Bool
  deriving DecidableEq, Repr

/-- The pipes created so far; a pipe is named by its position. -/
abbrev PipeWorld := List PipeState

/-- The error `io.ErrClosedPipe`. -/
def ErrClosedPipe : GoError := .other "io: read/write on closed pipe".toList

/-- The error `io.EOF`. -/
def EOF : GoError := .other "EOF".toList

/-- The function `io.Pipe()` on the model: a fresh empty pipe. -/
def ioPipe : Act PipeWorld (PipeReader × PipeWriter) :=
  fun w => ((⟨w.length⟩, ⟨w.length⟩), w ++ [{ chunks := [], rclosed := false, wclosed := false }])

/-- The method `(*io.PipeWriter).Write` on the model: the bytes are handed to
the pipe as one chunk, unless an end is closed. -/
def pipeWrite (pw : PipeWriter) (b : Str) : Act PipeWorld (Nat × Option GoError) :=
  fun w =>
    match w[pw.p]? with
    | none => ((0, some ErrClosedPipe), w)
    | some st =>
      if st.rclosed || st.wclosed then ((0, some ErrClosedPipe), w)
      else ((b.length, none), w.set pw.p { st with chunks := st.chunks ++ [b] })

/-- The method `(*io.PipeReader).Read` on the model, for a buffer of `n`
bytes: at most `n` bytes of the oldest pending write; a write is done once
all its bytes were read. `none` is a call that blocks (no write is pending
and the write end is open). -/
def pipeRead (pr : PipeReader) (n : Nat) (w : PipeWorld) :
    Option ((Str × Option GoError) × PipeWorld) :=
  match w[pr.p]? with
  | none => some (([], some ErrClosedPipe), w)
  | some st =>
    if st.rclosed then some (([], some ErrClosedPipe), w)
    else
      match st.chunks with
      | [] => if st.wclosed then some (([], some EOF), w) else none
      | c :: cs =>
        let rest := if (c.drop n).length = 0 then cs else c.drop n :: cs
        some ((c.take n, none), w.set pr.p { st with chunks := rest })

/-- The method `(*io.PipeReader).Close` on the model; it returns nil. -/
def pipeReaderClose (pr : PipeReader) : CloseFn PipeWorld :=
  fun w =>
    match w[pr.p]? with
    | none => (none, w)
    | some st => (none, w.set pr.p { st with rclosed := true })

/-- The method `(*io.PipeWriter).Close` on the model; it returns nil. -/
def pipeWriterClose (pw : PipeWriter) : CloseFn PipeWorld :=
  fun w =>
    match w[pw.p]? with
    | none => (none, w)
    | some st => (none, w.set pw.p { st with wclosed := true })

/-- Package `io` on the model. -/
def ioModel : PipeOps PipeWorld where
  Pipe := ioPipe
  ReaderClose := pipeReaderClose
  WriterClose := pipeWriterClose

/-- The promoted method `Write` of a `pipeReadWriteCloser`. -/
def pipeReadWriteCloser.Write (c : pipeReadWriteCloser) (b : Str) :
    Act PipeWorld (Nat × Option GoError) :=
  pipeWrite c.PipeWriter b

/-- The promoted method `Read` of a `pipeReadWriteCloser`. -/
def pipeReadWriteCloser.Read (c : pipeReadWriteCloser) (n : Nat) (w : PipeWorld) :
    Option ((Str × Option GoError) × PipeWorld) :=
  pipeRead c.PipeReader n w

/-- Repeated `Read` calls with a buffer of `n` bytes, until a call blocks or
fails or `fuel` calls were made: the bytes read, in order, and the world. -/
def pipeReadWriteCloser.readAll (c : pipeReadWriteCloser) (n : Nat) :
    Nat → PipeWorld → Str × PipeWorld
  | 0, w => ([], w)
  | fuel + 1, w =>
    match c.Read n w with
    | some ((bs, none), w1) =>
      let (more, w2) := c.readAll n fuel w1
      (bs ++ more, w2)
    | _ => ([], w)

/-- Successive `Write` calls, one per element of `bs`, all expected to be
accepted: the world afterwards. -/
def pipeReadWriteCloser.writeAll (c : pipeReadWriteCloser) : List Str → PipeWorld → PipeWorld
  | [], w => w
  | b :: bs, w => c.writeAll bs (c.Write b w).2

/-! ## The registry and the library it is built on -/

/-- The interface values a factory of this file can return as an
`io.ReadWriteCloser`. -/
inductive Conn (W : Type) where
  /-- The `net.Conn` returned by `net.DialTimeout`. -/
  | netConn (id : Nat)
  /-- A `readWriteCloser` value. -/
  | rwc (x : readWriteCloser W)
  /-- A `*pipeReadWriteCloser`. -/
  | pipe (x : pipeReadWriteCloser)

/-- The pair `(io.ReadWriteCloser, error)`; `none` is nil. -/
abbrev ConnResult (W : Type) := Option (Conn W) × Option GoError

/-- The type `func() (io.ReadWriteCloser, error)`. -/
abbrev Factory (W : Type) := Act W (ConnResult W)

/-- The type `map[string]func() (io.ReadWriteCloser, error)` of
`ServersByMode`, as an association list with distinct keys. -/
abbrev Registry (W : Type) := List (Str × Factory W)

/-- The map read `ServersByMode[mode]` with its `ok` flag. -/
def Registry.get {W : Type} : Registry W → Str → Option (Factory W)
  | [], _ => none
  | (k, f) :: r, mode => if k = mode then some f else Registry.get r mode

/-- The map write `ServersByMode[mode] = f`. -/
def Registry.set {W : Type} : Registry W → Str → Factory W → Registry W
  | [], mode, f => [(mode, f)]
  | (k, g) :: r, mode, f => if k = mode then (k, f) :: r else (k, g) :: Registry.set r mode f

/-- The value `*exec.Cmd` as far as the file sets it. -/
structure Cmd (W : Type) where
  Name : Str
  Args : List Str
  Stderr : Option (prefixWriter W)

/-- The library functions and constants the file uses and does not define. -/
structure Lib (W : Type) where
  /-- The function `strings.ToLower`. -/
  ToLower : Str → Str
  /-- The verb `%q` of package `fmt` applied to a string. -/
  Quote : Str → Str
  /-- The call `json.Unmarshal([]byte(v), &args)` on a nil `args`: the error,
  or the decoded slice. -/
  Unmarshal : Str → Except GoError (List Str)
  /-- The function `filepath.Base`. -/
  Base : Str → Str
  /-- The function `net.DialTimeout(network, address, timeout)`, the timeout
  in seconds. -/
  DialTimeout : Str → Str → Nat → Act W (Except GoError Nat)
  /-- The variable `os.Stderr`. -/
  Stderr : Writer W
  /-- The method `(*exec.Cmd).StdinPipe`. -/
  StdinPipe : Cmd W → Act W (Except GoError (WriteCloser W))
  /-- The method `(*exec.Cmd).StdoutPipe`. -/
  StdoutPipe : Cmd W → Act W (Except GoError (ReadCloser W))
  /-- The method `(*exec.Cmd).Start`: the error, or the started process. -/
  Start : Cmd W → Act W (Except GoError Nat)
  /-- The method `(*os.Process).Kill` of a started process. -/
  Kill : Nat → CloseFn W
  /-- The constant `CodeModeNotFound`, declared elsewhere in the package. -/
  CodeModeNotFound : Int

/-- The error of lines 33 to 36, with `%q` filled in. -/
def errModeNotFound (code : Int) (quote : Str → Str) (mode : Str) : GoError :=
  .jsonrpc2 code ("xlang server proxy: no server registered for mode ".toList ++ quote mode)

/-- The function `connectToServer`, on the registry `ServersByMode`. -/
def connectToServer {W : Type} (lib : Lib W) (ServersByMode : Registry W) (mode : Str) :
    Act W (ConnResult W) :=
  fun s =>
    match ServersByMode.get mode with
    | some connect => connect s
    | none =>
      ((none, some (errModeNotFound lib.CodeModeNotFound lib.Quote mode)), s)

/-- The function `os.Getenv` on the environment `environ`: the value of the
first entry `key=value`, or the empty string. -/
def Getenv : List Str → Str → Str
  | [], _ => []
  | kv :: rest, key =>
    match SplitN2 '=' kv with
    | [k, v] => if k = key then v else Getenv rest key
    | _ => Getenv rest key

/-- The string `"tcp://"`. -/
def tcpScheme : Str := "tcp://".toList

/-- The string `":"`. -/
def colon : Str := ":".toList

/-- The closure registered for a `tcp://` value (lines 63 to 65). -/
def dialFactory {W : Type} (lib : Lib W) (val : Str) : Factory W :=
  fun s =>
    match lib.DialTimeout "tcp".toList (TrimPrefix val tcpScheme) 5 s with
    | (.ok c, s1) => ((some (.netConn c), none), s1)
    | (.error err, s1) => ((none, some err), s1)

/-- The closure registered for an executable (lines 80 to 95). -/
def execFactory {W : Type} (lib : Lib W) (val : Str) (args : List Str) : Factory W :=
  fun s =>
    let cmd : Cmd W :=
      { Name := val, Args := args,
        Stderr := some { w := lib.Stderr, pfx := lib.Base val ++ ": ".toList } }
    match lib.StdinPipe cmd s with
    | (.error err, s1) => ((none, some err), s1)
    | (.ok inp, s1) =>
      match lib.StdoutPipe cmd s1 with
      | (.error err, s2) => ((none, some err), s2)
      | (.ok out, s2) =>
        match lib.Start cmd s2 with
        | (.error err, s3) => ((none, some err), s3)
        | (.ok pid, s3) =>
          ((some (.rwc { rc := out, wc := inp, otherCloseFunc := some (lib.Kill pid) }), none), s3)

/-- A record written through `log15`. -/
inductive LogRecord where
  | info (msg : Str) (ctx : List (Str × Str))
  | warn (msg : Str)
  deriving DecidableEq, Repr

/-- What `RegisterServersFromEnv` changes: the package variable
`ServersByMode` and the log. -/
structure RegState (W : Type) where
  ServersByMode : Registry W
  log : List LogRecord

/-- The string `"LANGSERVER_"`. -/
def envPrefix : Str := "LANGSERVER_".toList

/-- The string `"_ARGS_JSON"`. -/
def argsSuffix : Str := "_ARGS_JSON".toList

/-- The error of line 58, with `%s` and `%q` filled in. -/
def errAlreadyRegistered (quote : Str → Str) (name mode : Str) : GoError :=
  .errorf ("invalid language server registration from env var ".toList ++ name
    ++ ": a server is already registered for the mode ".toList ++ quote mode)

/-- The error of line 67, with `%q` and `%s` filled in. -/
def errInvalidURL (quote : Str → Str) (val : Str) : GoError :=
  .errorf ("invalid language server URL ".toList ++ quote val
    ++ " (you probably mean \"".toList ++ tcpScheme ++ val ++ "\")".toList)

/-- The error of line 75, with both `%s` filled in. -/
def errArgsJSON (name : Str) (err : GoError) : GoError :=
  .errorf (name ++ "_ARGS_JSON: ".toList ++ err.message)

/-- The log record of line 62. -/
def logListener (mode val : Str) : LogRecord :=
  .info "Registering language server listener".toList
    [("mode".toList, mode), ("listener".toList, val)]

/-- The log record of line 79. -/
def logExecutable (mode val : Str) : LogRecord :=
  .info "Registering language server executable".toList
    [("mode".toList, mode), ("path".toList, val)]

/-- The body of the loop of `RegisterServersFromEnv` for the entry `kv`:
`some err` when the function returns `err` there, `none` when the loop goes
on to the next entry. -/
def registerEntry {W : Type} (lib : Lib W) (environ : List Str) (kv : Str) (st : RegState W) :
    Option GoError × RegState W :=
  match SplitN2 '=' kv with
  | [name, val] =>
    if val = [] then (none, st)
    else if HasPrefix name envPrefix && !HasSuffix name argsSuffix then
      let mode := lib.ToLower (TrimPrefix name envPrefix)
      match st.ServersByMode.get mode with
      | some _ => (some (errAlreadyRegistered lib.Quote name mode), st)
      | none =>
        if HasPrefix val tcpScheme then
          (none,
            { ServersByMode := st.ServersByMode.set mode (dialFactory lib val),
              log := st.log ++ [logListener mode val] })
        else if Contains val colon then
          (some (errInvalidURL lib.Quote val), st)
        else
          let v := Getenv environ (name ++ argsSuffix)
          match (if v ≠ [] then lib.Unmarshal v else .ok []) with
          | .error err => (some (errArgsJSON name err), st)
          | .ok args =>
            (none,
              { ServersByMode := st.ServersByMode.set mode (execFactory lib val args),
                log := st.log ++ [logExecutable mode val] })
    else (none, st)
  | _ => (none, st)

/-- The loop `for _, kv := range os.Environ()` over the entries still to be
visited. -/
def registerLoop {W : Type} (lib : Lib W) (environ : List Str) :
    List Str → RegState W → Option GoError × RegState W
  | [], st => (none, st)
  | kv :: rest, st =>
    match registerEntry lib environ kv st with
    | (some err, st1) => (some err, st1)
    | (none, st1) => registerLoop lib environ rest st1

/-- The function `RegisterServersFromEnv`, for the environment `environ`
(the result of `os.Environ()`), started in the state `st`. -/
def RegisterServersFromEnv {W : Type} (lib : Lib W) (environ : List Str) (st : RegState W) :
    Option GoError × RegState W :=
  match registerLoop lib environ environ st with
  | (some err, st1) => (some err, st1)
  | (none, st1) =>
    if st1.ServersByMode.length = 0 then
      (none, { st1 with log := st1.log ++ [.warn "No language servers registered".toList] })
    else (none, st1)

/-- An entry the loop acts on: it has the form `name=val` with a non-empty
`val`, `name` starts with `LANGSERVER_` and does not end with `_ARGS_JSON`. -/
def recognized (kv name val : Str) : Prop :=
  SplitN2 '=' kv = [name, val] ∧ val ≠ [] ∧ HasPrefix name envPrefix = true
    ∧ HasSuffix name argsSuffix = false

instance (kv name val : Str) : Decidable (recognized kv name val) := by
  unfold recognized
  infer_instance

/-- The mode of a recognized entry named `name`. -/
def modeOf {W : Type} (lib : Lib W) (name : Str) : Str :=
  lib.ToLower (TrimPrefix name envPrefix)

/-- The arguments of an executable entry named `name`: the decoded companion
variable, or no arguments when it is empty or unset (lines 72 to 77). -/
def companionArgs {W : Type} (lib : Lib W) (environ : List Str) (name : Str) :
    Except GoError (List Str) :=
  if Getenv environ (name ++ argsSuffix) ≠ [] then
    lib.Unmarshal (Getenv environ (name ++ argsSuffix))
  else .ok []

/-- The registration a recognized entry `name=val` makes when the loop
reaches it with its mode free: the closure it stores, or `none` when the
entry is rejected (lines 60 to 96). -/
def entryFactory {W : Type} (lib : Lib W) (environ : List Str) (name val : Str) :
    Option (Factory W) :=
  if HasPrefix val tcpScheme then some (dialFactory lib val)
  else if Contains val colon then none
  else
    match companionArgs lib environ name with
    | .ok args => some (execFactory lib val args)
    | .error _ => none

/-- The first recognized entry of the list whose mode is `mode`, as
`(name, val)`. -/
def firstEntry {W : Type} (lib : Lib W) (mode : Str) : List Str → Option (Str × Str)
  | [] => none
  | kv :: rest =>
    match SplitN2 '=' kv with
    | [name, val] =>
      if val ≠ [] ∧ HasPrefix name envPrefix = true ∧ HasSuffix name argsSuffix = false
          ∧ modeOf lib name = mode then some (name, val)
      else firstEntry lib mode rest
    | _ => firstEntry lib mode rest

/-- Bytes and writes still in flight in a list of chunks: a bound on the
number of reads that drain it. -/
def chunkMeasure (chunks : List Str) : Nat :=
  chunks.flatten.length + chunks.length

/-- The bytes of the labelled lines of a list of pieces. -/
def emitted (pfx : Str) (pieces : List Str) : Str :=
  ((pieces.filter (fun l => l ≠ [])).map (fun l => pfx ++ l ++ ['\n'])).flatten

/-! ## A concrete library -/

/-- A JSON value as package `encoding/json` reads it. -/
inductive JSON where
  | null
  | bool (b : Bool)
  | number (text : Str)
  | string (s : Str)
  | array (xs : List JSON)
  | object (members : List (Str × JSON))
  deriving Repr

/-- JSON white space. -/
def isSpace (c : Char) : Bool :=
  c == ' ' || c == '\t' || c == '\r' || c == '\n'

/-- The input without its leading white space. -/
def skipSpace (s : Str) : Str :=
  s.dropWhile isSpace

/-- The value of a hexadecimal digit. -/
def hexVal (c : Char) : Option Nat :=
  if '0' ≤ c ∧ c ≤ '9' then some (c.toNat - '0'.toNat)
  else if 'a' ≤ c ∧ c ≤ 'f' then some (c.toNat - 'a'.toNat + 10)
  else if 'A' ≤ c ∧ c ≤ 'F' then some (c.toNat - 'A'.toNat + 10)
  else none

/-- The four hexadecimal digits after `\u`, as a UTF-16 code unit. -/
def getu4 : Str → Option (Nat × Str)
  | a :: b :: c :: d :: rest =>
    match hexVal a, hexVal b, hexVal c, hexVal d with
    | some x, some y, some z, some t => some (((x * 16 + y) * 16 + z) * 16 + t, rest)
    | _, _, _, _ => none
  | _ => none

/-- The rune U+FFFD, which the decoder writes for an unpaired surrogate. -/
def replacementChar : Char := Char.ofNat 0xFFFD

/-- The body of a JSON string after its opening quote: the decoded string and
the input after the closing quote. -/
def parseStringBody : Nat → Str → Option (Str × Str)
  | 0, _ => none
  | _ + 1, [] => none
  | fuel + 1, c :: rest =>
    if c = '"' then some ([], rest)
    else if c = '\\' then
      match rest with
      | [] => none
      | 'u' :: rest1 =>
        match getu4 rest1 with
        | none => none
        | some (u, rest2) =>
          if 0xD800 ≤ u ∧ u < 0xDC00 then
            match rest2 with
            | '\\' :: 'u' :: rest3 =>
              match getu4 rest3 with
              | some (v, rest4) =>
                if 0xDC00 ≤ v ∧ v < 0xE000 then
                  (parseStringBody fuel rest4).map fun (t, r) =>
                    (Char.ofNat (0x10000 + (u - 0xD800) * 0x400 + (v - 0xDC00)) :: t, r)
                else (parseStringBody fuel rest2).map fun (t, r) => (replacementChar :: t, r)
              | none => (parseStringBody fuel rest2).map fun (t, r) => (replacementChar :: t, r)
            | _ => (parseStringBody fuel rest2).map fun (t, r) => (replacementChar :: t, r)
          else if 0xDC00 ≤ u ∧ u < 0xE000 then
            (parseStringBody fuel rest2).map fun (t, r) => (replacementChar :: t, r)
          else (parseStringBody fuel rest2).map fun (t, r) => (Char.ofNat u :: t, r)
      | e :: rest1 =>
        let plain : Option Char :=
          if e = '"' then some '"' else if e = '\\' then some '\\'
          else if e = '/' then some '/' else if e = 'b' then some (Char.ofNat 8)
          else if e = 'f' then some (Char.ofNat 12) else if e = 'n' then some '\n'
          else if e = 'r' then some '\r' else if e = 't' then some '\t' else none
        match plain with
        | none => none
        | some d => (parseStringBody fuel rest1).map fun (t, r) => (d :: t, r)
    else if c.toNat < 0x20 then none
    else (parseStringBody fuel rest).map fun (t, r) => (c :: t, r)

/-- A run of decimal digits and the input after it. -/
def spanDigits (s : Str) : Str × Str :=
  (s.takeWhile Char.isDigit, s.dropWhile Char.isDigit)

/-- A JSON number at the head of the input: its text and the input after it. -/
def parseNumber (s : Str) : Option (Str × Str) :=
  let (sign, s1) := match s with
    | '-' :: r => (['-'], r)
    | _ => ([], s)
  let intPart : Option (Str × Str) :=
    match s1 with
    | '0' :: r => some (['0'], r)
    | c :: _ => if c.isDigit then some (spanDigits s1) else none
    | [] => none
  match intPart with
  | none => none
  | some (i, s2) =>
    let frac : Option (Str × Str) :=
      match s2 with
      | '.' :: r =>
        let (d, r1) := spanDigits r
        if d = [] then none else some ('.' :: d, r1)
      | _ => some ([], s2)
    match frac with
    | none => none
    | some (f, s3) =>
      let exp : Option (Str × Str) :=
        match s3 with
        | e :: r =>
          if e = 'e' ∨ e = 'E' then
            let (sg, r1) := match r with
              | '+' :: r0 => (['+'], r0)
              | '-' :: r0 => (['-'], r0)
              | _ => ([], r)
            let (d, r2) := spanDigits r1
            if d = [] then none else some (e :: sg ++ d, r2)
          else some ([], s3)
        | [] => some ([], s3)
      match exp with
      | none => none
      | some (x, s4) => some (sign ++ i ++ f ++ x, s4)

mutual
/-- A JSON value at the head of the input (after white space), and the input
after it. -/
def parseValue : Nat → Str → Option (JSON × Str)
  | 0, _ => none
  | fuel + 1, s =>
    match skipSpace s with
    | 'n' :: 'u' :: 'l' :: 'l' :: r => some (.null, r)
    | 't' :: 'r' :: 'u' :: 'e' :: r => some (.bool true, r)
    | 'f' :: 'a' :: 'l' :: 's' :: 'e' :: r => some (.bool false, r)
    | '"' :: r => (parseStringBody (r.length + 1) r).map fun (t, r1) => (.string t, r1)
    | '[' :: r =>
      match skipSpace r with
      | ']' :: r1 => some (.array [], r1)
      | _ => (parseElements fuel r).map fun (xs, r1) => (.array xs, r1)
    | '{' :: r =>
      match skipSpace r with
      | '}' :: r1 => some (.object [], r1)
      | _ => (parseMembers fuel r).map fun (ms, r1) => (.object ms, r1)
    | c :: r =>
      if c = '-' ∨ c.isDigit then (parseNumber (c :: r)).map fun (t, r1) => (.number t, r1)
      else none
    | [] => none
/-- The elements of a non-empty array after its `[`, up to and including the
closing `]`. -/
def parseElements : Nat → Str → Option (List JSON × Str)
  | 0, _ => none
  | fuel + 1, s =>
    match parseValue fuel s with
    | none => none
    | some (x, r) =>
      match skipSpace r with
      | ',' :: r1 => (parseElements fuel r1).map fun (xs, r2) => (x :: xs, r2)
      | ']' :: r1 => some ([x], r1)
      | _ => none
/-- The members of a non-empty object after its `{`, up to and including the
closing `}`. -/
def parseMembers : Nat → Str → Option (List (Str × JSON) × Str)
  | 0, _ => none
  | fuel + 1, s =>
    match skipSpace s with
    | '"' :: r =>
      match parseStringBody (r.length + 1) r with
      | none => none
      | some (k, r1) =>
        match skipSpace r1 with
        | ':' :: r2 =>
          match parseValue fuel r2 with
          | none => none
          | some (x, r3) =>
            match skipSpace r3 with
            | ',' :: r4 => (parseMembers fuel r4).map fun (ms, r5) => ((k, x) :: ms, r5)
            | '}' :: r4 => some ([(k, x)], r4)
            | _ => none
        | _ => none
    | _ => none
end

/-- The whole input as one JSON value, or `none` for a syntax error. -/
def parseJSON (s : Str) : Option JSON :=
  match parseValue (2 * s.length + 2) s with
  | some (x, r) => if skipSpace r = [] then some x else none
  | none => none

/-- The value is a JSON array whose elements are all strings, in the words of
the specification ("a valid JSON array of strings"). -/
def isJSONArrayOfStrings (v : Str) : Bool :=
  match parseJSON v with
  | some (.array xs) => xs.all fun x => match x with
    | .string _ => true
    | _ => false
  | _ => false

/-- One array element stored into a `string`: a JSON string is stored, `null`
leaves the zero value, anything else is a type error. -/
def decodeElement : JSON → Option Str
  | .string t => some t
  | .null => some []
  | _ => none

/-- The elements of an array stored into a `[]string`. -/
def decodeElements : List JSON → Option (List Str)
  | [] => some []
  | x :: xs =>
    match decodeElement x, decodeElements xs with
    | some t, some ts => some (t :: ts)
    | _, _ => none

/-- The call `json.Unmarshal([]byte(v), &args)` for a nil `args []string`:
a syntax error for input that is not JSON; `null` leaves `args` nil; an array
is stored element by element; any other value, or an element that is neither
a string nor `null`, is an `UnmarshalTypeError`. The texts of the errors are
not reproduced. -/
def jsonUnmarshal (v : Str) : Except GoError (List Str) :=
  match parseJSON v with
  | none => .error (.other "json: syntax error".toList)
  | some .null => .ok []
  | some (.array xs) =>
    match decodeElements xs with
    | some ts => .ok ts
    | none => .error (.other "json: cannot unmarshal value into Go value of type string".toList)
  | some _ => .error (.other "json: cannot unmarshal value into Go value of type []string".toList)

/-- One character inside the quotes of `strconv.Quote`, for the printable
characters and the common control characters. -/
def quoteChar (c : Char) : Str :=
  if c = '"' then ['\\', '"']
  else if c = '\\' then ['\\', '\\']
  else if c = '\n' then ['\\', 'n']
  else if c = '\r' then ['\\', 'r']
  else if c = '\t' then ['\\', 't']
  else [c]

/-- The verb `%q` on a string of printable characters: the string in double
quotes with `"` and `\` escaped. -/
def goQuote (s : Str) : Str :=
  '"' :: (s.map quoteChar).flatten ++ ['"']

/-- The function `filepath.Base` for slash-separated paths. -/
def filepathBase (path : Str) : Str :=
  if path = [] then ['.']
  else
    let trimmed := (path.reverse.dropWhile (· == '/')).reverse
    let last := (trimmed.reverse.takeWhile (· != '/')).reverse
    if last = [] then ['/'] else last

/-- The function `strings.ToLower` on ASCII strings. -/
def asciiToLower (s : Str) : Str :=
  s.map Char.toLower

/-- What the traced operating system records. -/
inductive Event where
  | dial (network address : Str) (timeout : Nat)
  | stdinPipe (name : Str)
  | stdoutPipe (name : Str)
  | start (name : Str) (args : List Str)
  | kill (pid : Nat)
  | stdinClose (name : Str)
  | stdoutClose (name : Str)
  | stdinWrite (name : Str) (bytes : Str)
  | stderrWrite (bytes : Str)
  deriving DecidableEq, Repr

/-- A library instance for evaluating the code: the string functions are the
models above, and the operating system lets every call succeed and records it
in a trace. The value of `CodeModeNotFound` stands for the constant declared
elsewhere in the package. -/
def traceLib : Lib (List Event) where
  ToLower := asciiToLower
  Quote := goQuote
  Unmarshal := jsonUnmarshal
  Base := filepathBase
  DialTimeout := fun network address timeout tr =>
    (.ok tr.length, tr ++ [.dial network address timeout])
  Stderr := fun b tr => ((b.length, none), tr ++ [.stderrWrite b])
  StdinPipe := fun cmd tr =>
    (.ok { Write := fun b t => ((b.length, none), t ++ [.stdinWrite cmd.Name b]),
           Close := fun t => (none, t ++ [.stdinClose cmd.Name]) },
      tr ++ [.stdinPipe cmd.Name])
  StdoutPipe := fun cmd tr =>
    (.ok { Read := fun _ t => (([], none), t),
           Close := fun t => (none, t ++ [.stdoutClose cmd.Name]) },
      tr ++ [.stdoutPipe cmd.Name])
  Start := fun cmd tr => (.ok tr.length, tr ++ [.start cmd.Name cmd.Args])
  Kill := fun pid tr => (none, tr ++ [.kill pid])
  CodeModeNotFound := -32000

/-- The registry is empty and nothing was logged. -/
def RegState.empty {W : Type} : RegState W :=
  { ServersByMode := [], log := [] }

/-! # Theorems -/

/-! ## prefixWriter -/

theorem writeLines_of_accepting {W : Type} (pw : prefixWriter W)
    (h : ∀ b s, (pw.w b s).1.2 = none) (lines : List Str) (s : W) :
    pw.writeLines lines s =
      (none, (((lines.filter (fun l => l ≠ [])).map (fun l => pw.pfx ++ l ++ ['\n'])).foldl
        (fun s c => (pw.w c s).2) s)) := by
  induction lines generalizing s with
  | nil => rfl
  | cons line rest ih =>
    by_cases hl : line = []
    · subst hl
      simp [prefixWriter.writeLines, ih]
    · have hlen : line.length ≠ 0 := by
        intro h0
        exact hl (List.length_eq_zero.mp h0)
      have hw := h (pw.pfx ++ line ++ ['\n']) s
      rcases hres : pw.w (pw.pfx ++ line ++ ['\n']) s with ⟨⟨n, e⟩, s1⟩
      rw [hres] at hw
      simp only at hw
      subst hw
      have hres2 : pw.w (pw.pfx ++ (line ++ ['\n'])) s = ((n, none), s1) := by
        rw [← List.append_assoc]; exact hres
      simp [prefixWriter.writeLines, hlen, hl, Fprintf_s_s_nl, hres2, ih]

theorem recordingSink_foldl (chunks : List Str) (log : List Str) :
    chunks.foldl (fun s c => (recordingSink c s).2) log = log ++ chunks := by
  induction chunks generalizing log with
  | nil => simp
  | cons c cs ih =>
    rw [List.foldl_cons, ih]
    simp [recordingSink]

theorem Write_of_accepting {W : Type} (sink : Writer W) (pfx p : Str) (s : W)
    (accepts : ∀ b s, (sink b s).1.2 = none) :
    prefixWriter.Write ⟨sink, pfx⟩ p s =
      ((p.length, none), (labelledLines pfx p).foldl (fun s c => (sink c s).2) s) := by
  have h := writeLines_of_accepting ⟨sink, pfx⟩ accepts (bytesSplit '\n' p) s
  simp only [prefixWriter.Write, h, labelledLines]

/-- C4: when the sink accepts every write, `prefixWriter.Write(p)` calls the
sink's `Write` once for each non-empty piece of `p` split on newlines, in
order, with `prefix ++ piece ++ "\n"` (the world afterwards is the one reached
by exactly these writes), and returns `(len(p), nil)`; with prefix `"x: "` and
`p = "a\nb\n\n"` a recording sink receives `"x: a\n"` then `"x: b\n"` and the
count is 5. -/
theorem prefixWriter_Write_accepting {W : Type} (sink : Writer W) (pfx p : Str) (s : W)
    (accepts : ∀ b s, (sink b s).1.2 = none) :
    prefixWriter.Write ⟨sink, pfx⟩ p s =
        ((p.length, none), (labelledLines pfx p).foldl (fun s c => (sink c s).2) s)
    ∧ labelledLines pfx p =
        ((bytesSplit '\n' p).filter (fun l => l ≠ [])).map (fun l => pfx ++ l ++ ['\n'])
    ∧ prefixWriter.Write ⟨recordingSink, "x: ".toList⟩ "a\nb\n\n".toList [] =
        ((5, none), ["x: a\n".toList, "x: b\n".toList]) :=
  ⟨Write_of_accepting sink pfx p s accepts, rfl, by decide⟩

theorem prefixWriter_Write_accepting_witness :
    (∀ b s, (recordingSink b s).1.2 = none) ∧
    prefixWriter.Write ⟨recordingSink, "err: ".toList⟩ "one\n\ntwo".toList ["old".toList] =
      ((8, none), ["old".toList, "err: one\n".toList, "err: two\n".toList]) :=
  ⟨fun _ _ => rfl,
   (prefixWriter_Write_accepting recordingSink "err: ".toList "one\n\ntwo".toList
      ["old".toList] (fun _ _ => rfl)).1.trans (by decide)⟩

theorem bytesSplit_ne_nil (sep : Char) (p : Str) : bytesSplit sep p ≠ [] := by
  cases p with
  | nil => simp [bytesSplit]
  | cons c cs =>
    unfold bytesSplit
    split
    · simp
    · split <;> simp

theorem bytesSplit_singleton (sep : Char) (p l : Str) (h : bytesSplit sep p = [l]) : l = p := by
  induction p generalizing l with
  | nil => simpa [bytesSplit] using h.symm
  | cons c cs ih =>
    unfold bytesSplit at h
    split at h
    · simp at h
      exact absurd h.2 (bytesSplit_ne_nil sep cs)
    · split at h
      · rename_i h0
        exact absurd h0 (bytesSplit_ne_nil sep cs)
      · rename_i l1 ls h0
        simp at h
        obtain ⟨h1, h2⟩ := h
        subst h2
        rw [ih l1 h0] at h1
        exact h1.symm

/-- Splitting a concatenation: the last piece of the left part and the first
piece of the right part are joined, the other pieces are unchanged. -/
theorem bytesSplit_append (sep : Char) (p q : Str) :
    ∃ A l f B, bytesSplit sep p = A ++ [l] ∧ bytesSplit sep q = f :: B ∧
      bytesSplit sep (p ++ q) = A ++ (l ++ f) :: B ∧
      (l = [] ↔ (p = [] ∨ p.getLast? = some sep)) := by
  induction p with
  | nil =>
    rcases hq : bytesSplit sep q with _ | ⟨f, B⟩
    · exact absurd hq (bytesSplit_ne_nil sep q)
    · exact ⟨[], [], f, B, by simp [bytesSplit], rfl, by simp [hq], by simp⟩
  | cons c cs ih =>
    obtain ⟨A, l, f, B, h1, h2, h3, h4⟩ := ih
    by_cases hc : c = sep
    · refine ⟨[] :: A, l, f, B, ?_, h2, ?_, ?_⟩
      · simp [bytesSplit, hc, h1]
      · simp [bytesSplit, hc, h3]
      · rw [h4]
        cases cs with
        | nil => simp [hc]
        | cons d ds => simp [List.getLast?_cons_cons]
    · cases A with
      | nil =>
        refine ⟨[], c :: l, f, B, ?_, h2, ?_, ?_⟩
        · simp [bytesSplit, hc, h1]
        · simp [bytesSplit, hc, h3]
        · simp only [List.nil_append, List.singleton_append] at h1
          have hl := bytesSplit_singleton sep cs l h1
          subst hl
          cases l with
          | nil => simp [hc]
          | cons d ds =>
            simp only [List.getLast?_cons_cons]
            constructor
            · intro h; cases h
            · intro h
              rcases h with h | h
              · cases h
              · exact absurd (h4.mpr (Or.inr h)) (by simp)
      | cons a A =>
        refine ⟨(c :: a) :: A, l, f, B, ?_, h2, ?_, ?_⟩
        · simp [bytesSplit, hc, h1]
        · simp [bytesSplit, hc, h3]
        · rw [h4]
          cases cs with
          | nil => simp [bytesSplit] at h1
          | cons d ds => simp [List.getLast?_cons_cons]

theorem bytesSplit_head_nil (sep : Char) (q f : Str) (B : List Str)
    (h : bytesSplit sep q = f :: B) : f = [] ↔ (q = [] ∨ q.head? = some sep) := by
  cases q with
  | nil =>
    simp [bytesSplit] at h
    simp [h.1]
  | cons c cs =>
    unfold bytesSplit at h
    split at h
    · rename_i hc
      simp at h
      simp [h.1, hc]
    · rename_i hc
      split at h
      · simp at h
        simp [← h.1, hc]
      · simp at h
        simp [← h.1, hc]

theorem emitted_append (pfx : Str) (xs ys : List Str) :
    emitted pfx (xs ++ ys) = emitted pfx xs ++ emitted pfx ys := by
  simp [emitted]

theorem emitted_single (pfx l : Str) :
    emitted pfx [l] = if l = [] then [] else pfx ++ l ++ ['\n'] := by
  by_cases h : l = [] <;> simp [emitted, h]

theorem emitted_join (pfx l f : Str) :
    emitted pfx [l] ++ emitted pfx [f] = emitted pfx [l ++ f] ↔ (l = [] ∨ f = []) := by
  by_cases hl : l = []
  · simp [hl, emitted_single]
  · by_cases hf : f = []
    · simp [hf, emitted_single]
    · simp only [emitted_single, hl, hf, if_false, List.append_eq_nil, and_false, or_self, iff_false]
      intro h
      have := congrArg List.length h
      simp at this
      omega

theorem received_recording (pfx p : Str) (log : List Str) :
    (prefixWriter.Write ⟨recordingSink, pfx⟩ p log).2 = log ++ labelledLines pfx p := by
  rw [Write_of_accepting recordingSink pfx p log (fun _ _ => rfl)]
  exact recordingSink_foldl _ _

/-- C10, amended: the labeler keeps no state across write calls, not even a
partial line. For every prefix and all buffers `p` and `q`, the bytes a
recording sink receives from `Write(p)` followed by `Write(q)` equal those of
a single `Write(p ++ q)` exactly when no line is cut by the chunking: `p` is
empty or ends with a newline, or `q` is empty or starts with one. -/
theorem prefixWriter_Write_chunking (pfx p q : Str) (log : List Str) :
    ((prefixWriter.Write ⟨recordingSink, pfx⟩ q
        (prefixWriter.Write ⟨recordingSink, pfx⟩ p log).2).2).flatten
      = ((prefixWriter.Write ⟨recordingSink, pfx⟩ (p ++ q) log).2).flatten
    ↔ ((p = [] ∨ p.getLast? = some '\n') ∨ (q = [] ∨ q.head? = some '\n')) := by
  obtain ⟨A, l, f, B, h1, h2, h3, h4⟩ := bytesSplit_append '\n' p q
  have h5 := bytesSplit_head_nil '\n' q f B h2
  rw [received_recording, received_recording, received_recording, ← h4, ← h5,
    ← emitted_join pfx l f]
  have e1 : (labelledLines pfx p).flatten = emitted pfx A ++ emitted pfx [l] := by
    rw [← emitted_append, ← h1]; rfl
  have e2 : (labelledLines pfx q).flatten = emitted pfx [f] ++ emitted pfx B := by
    rw [← emitted_append, List.singleton_append, ← h2]; rfl
  have e3 : (labelledLines pfx (p ++ q)).flatten
      = emitted pfx A ++ (emitted pfx [l ++ f] ++ emitted pfx B) := by
    rw [← emitted_append, List.singleton_append, ← emitted_append, ← h3]; rfl
  simp only [List.flatten_append, List.append_assoc, e1, e2, e3]
  rw [List.append_cancel_left_eq, List.append_cancel_left_eq,
    ← List.append_assoc (emitted pfx [l]), List.append_cancel_right_eq]

theorem prefixWriter_Write_chunking_witness :
    ((prefixWriter.Write ⟨recordingSink, "x: ".toList⟩ "c\n".toList
        (prefixWriter.Write ⟨recordingSink, "x: ".toList⟩ "ab\n".toList []).2).2).flatten
      = ((prefixWriter.Write ⟨recordingSink, "x: ".toList⟩ ("ab\n".toList ++ "c\n".toList)
          []).2).flatten :=
  (prefixWriter_Write_chunking "x: ".toList "ab\n".toList "c\n".toList []).mpr
    (Or.inl (Or.inr (by decide)))

/-- A line cut by the chunking: `"ab"` then `"c\n"` reaches the sink as two
labelled lines, `"abc\n"` in one write as one. -/
theorem prefixWriter_Write_not_buffered :
    ((prefixWriter.Write ⟨recordingSink, "x: ".toList⟩ "c\n".toList
        (prefixWriter.Write ⟨recordingSink, "x: ".toList⟩ "ab".toList []).2).2).flatten
      = "x: ab\nx: c\n".toList
    ∧ ((prefixWriter.Write ⟨recordingSink, "x: ".toList⟩ ("ab".toList ++ "c\n".toList)
          []).2).flatten
      = "x: abc\n".toList
    ∧ ((prefixWriter.Write ⟨recordingSink, "x: ".toList⟩ "c\n".toList
        (prefixWriter.Write ⟨recordingSink, "x: ".toList⟩ "ab".toList []).2).2).flatten
      ≠ ((prefixWriter.Write ⟨recordingSink, "x: ".toList⟩ ("ab".toList ++ "c\n".toList)
          []).2).flatten := by
  decide

/-! ## Close -/

/-- C5: `readWriteCloser.Close` closes the read-half and, if that fails,
returns that error in the world reached by that call alone; otherwise it
closes the write-half and, if that fails, returns that error without the
teardown; otherwise it invokes the teardown when one is present and returns
its result; it returns nil exactly when every step it performed succeeded.
On closers that record their calls the trace is the read-half alone, the
read-half and the write-half, or all three, in this order. -/
theorem readWriteCloser_Close_order {W : Type} (rwc : readWriteCloser W) (s : W) :
    (∀ e, (rwc.rc.Close s).1 = some e → rwc.Close s = (some e, (rwc.rc.Close s).2)) ∧
    ((rwc.rc.Close s).1 = none →
      (∀ e, (rwc.wc.Close (rwc.rc.Close s).2).1 = some e →
        rwc.Close s = (some e, (rwc.wc.Close (rwc.rc.Close s).2).2)) ∧
      ((rwc.wc.Close (rwc.rc.Close s).2).1 = none →
        (rwc.otherCloseFunc = none →
          rwc.Close s = (none, (rwc.wc.Close (rwc.rc.Close s).2).2)) ∧
        (∀ f, rwc.otherCloseFunc = some f →
          rwc.Close s = f (rwc.wc.Close (rwc.rc.Close s).2).2))) ∧
    ((rwc.Close s).1 = none ↔
      ((rwc.rc.Close s).1 = none ∧ (rwc.wc.Close (rwc.rc.Close s).2).1 = none ∧
        ∀ f, rwc.otherCloseFunc = some f → (f (rwc.wc.Close (rwc.rc.Close s).2).2).1 = none)) ∧
    (∀ (e1 e2 : Option GoError) (td : Option (Option GoError)) (log : List CloseStep),
      (loggedRWC e1 e2 td).Close log =
        match e1, e2, td with
        | some e, _, _ => (some e, log ++ [.readHalf])
        | none, some e, _ => (some e, log ++ [.readHalf, .writeHalf])
        | none, none, none => (none, log ++ [.readHalf, .writeHalf])
        | none, none, some r => (r, log ++ [.readHalf, .writeHalf, .teardown])) := by
  rcases h1 : rwc.rc.Close s with ⟨e1, s1⟩
  refine ⟨?_, ?_, ?_, ?_⟩
  · intro e he
    simp only at he
    subst he
    simp [readWriteCloser.Close, h1]
  · intro he
    simp only at he
    subst he
    rcases h2 : rwc.wc.Close s1 with ⟨e2, s2⟩
    refine ⟨?_, ?_⟩
    · intro e he
      simp only at he
      subst he
      simp [readWriteCloser.Close, h1, h2]
    · intro he
      simp only at he
      subst he
      refine ⟨?_, ?_⟩
      · intro ho
        simp [readWriteCloser.Close, h1, h2, ho]
      · intro f ho
        rcases h3 : f s2 with ⟨e3, s3⟩
        cases e3 <;> simp [readWriteCloser.Close, h1, h2, ho, h3]
  · rcases h2 : rwc.wc.Close s1 with ⟨e2, s2⟩
    cases e1 with
    | some e => simp [readWriteCloser.Close, h1]
    | none =>
      cases e2 with
      | some e => simp [readWriteCloser.Close, h1, h2]
      | none =>
        cases ho : rwc.otherCloseFunc with
        | none => simp [readWriteCloser.Close, h1, h2, ho]
        | some f =>
          rcases h3 : f s2 with ⟨e3, s3⟩
          cases e3 <;> simp [readWriteCloser.Close, h1, h2, ho, h3]
  · intro e1 e2 td log
    cases e1 <;> cases e2 <;> cases td <;>
      simp [readWriteCloser.Close, loggedRWC, loggedClose]
    rename_i r
    cases r <;> simp

theorem readWriteCloser_Close_order_witness :
    (loggedRWC none (some (.other "write half".toList)) (some none)).Close []
      = (some (.other "write half".toList), [.readHalf, .writeHalf]) :=
  ((readWriteCloser_Close_order (loggedRWC none (some (.other "write half".toList)) (some none))
    []).2.1 rfl).1 _ rfl

/-- C6, at the failing input: a `readWriteCloser` whose read-half fails to
close returns that error having called neither the write-half nor the
teardown, and one whose write-half fails never calls the teardown; a
`pipeReadWriteCloser` calls both closes whatever the first returns and
returns the reader's error if any, else the writer's. -/
theorem readWriteCloser_Close_skips_after_failure :
    (loggedRWC (some (.other "read half".toList)) none (some none)).Close []
      = (some (.other "read half".toList), [.readHalf])
    ∧ (loggedRWC none (some (.other "write half".toList)) (some none)).Close []
      = (some (.other "write half".toList), [.readHalf, .writeHalf])
    ∧ ∀ (W : Type) (io : PipeOps W) (c : pipeReadWriteCloser) (s : W),
        (c.Close io s).2 = (io.WriterClose c.PipeWriter (io.ReaderClose c.PipeReader s).2).2
        ∧ (c.Close io s).1 =
            match (io.ReaderClose c.PipeReader s).1 with
            | some e => some e
            | none => (io.WriterClose c.PipeWriter (io.ReaderClose c.PipeReader s).2).1 := by
  refine ⟨by decide, by decide, ?_⟩
  intro W io c s
  rcases h1 : io.ReaderClose c.PipeReader s with ⟨e1, s1⟩
  rcases h2 : io.WriterClose c.PipeWriter s1 with ⟨e2, s2⟩
  cases e1 <;> simp [pipeReadWriteCloser.Close, h1, h2]

/-! ## In-memory peers -/

theorem pipeWriteAll_spec (c : pipeReadWriteCloser) (ss : List Str) (w : PipeWorld)
    (st : PipeState) (hst : w[c.PipeWriter.p]? = some st)
    (hr : st.rclosed = false) (hw : st.wclosed = false) :
    c.writeAll ss w = w.set c.PipeWriter.p { st with chunks := st.chunks ++ ss } := by
  induction ss generalizing w st with
  | nil =>
    simp only [pipeReadWriteCloser.writeAll, List.append_nil]
    have hlt : c.PipeWriter.p < w.length := (List.getElem?_eq_some_iff.mp hst).1
    apply List.ext_getElem?
    intro i
    by_cases hi : c.PipeWriter.p = i
    · subst hi
      simp [List.getElem?_set, hlt, hst]
    · simp [List.getElem?_set, hi]
  | cons b bs ih =>
    have hlt : c.PipeWriter.p < w.length := (List.getElem?_eq_some_iff.mp hst).1
    have hstep : (c.Write b w).2 = w.set c.PipeWriter.p { st with chunks := st.chunks ++ [b] } := by
      simp [pipeReadWriteCloser.Write, pipeWrite, hst, hr, hw]
    simp only [pipeReadWriteCloser.writeAll, hstep]
    rw [ih (w.set c.PipeWriter.p { st with chunks := st.chunks ++ [b] })
      { st with chunks := st.chunks ++ [b] } (by simp [List.getElem?_set, hlt]) hr hw]
    simp

theorem pipeReadAll_spec (c : pipeReadWriteCloser) (n : Nat) (hn : 0 < n) (fuel : Nat)
    (w : PipeWorld) (st : PipeState) (hst : w[c.PipeReader.p]? = some st)
    (hr : st.rclosed = false) (hw : st.wclosed = false)
    (hfuel : chunkMeasure st.chunks ≤ fuel) :
    (c.readAll n fuel w).1 = st.chunks.flatten := by
  induction fuel generalizing w st with
  | zero =>
    simp only [chunkMeasure] at hfuel
    have : st.chunks = [] := by
      cases hc : st.chunks with
      | nil => rfl
      | cons a as => rw [hc] at hfuel; simp at hfuel
    simp [pipeReadWriteCloser.readAll, this]
  | succ fuel ih =>
    have hlt : c.PipeReader.p < w.length := (List.getElem?_eq_some_iff.mp hst).1
    rcases hc : st.chunks with _ | ⟨a, as⟩
    · simp [pipeReadWriteCloser.readAll, pipeReadWriteCloser.Read, pipeRead, hst, hr, hw, hc]
    · by_cases hd : (a.drop n).length = 0
      · have hstep : c.Read n w
            = some ((a.take n, none), w.set c.PipeReader.p { st with chunks := as }) := by
          simp [pipeReadWriteCloser.Read, pipeRead, hst, hr, hc, hd]
        have hta : a.take n = a := by
          have : a.length ≤ n := by
            simp at hd
            omega
          exact List.take_of_length_le this
        have hm : chunkMeasure as ≤ fuel := by
          simp only [chunkMeasure, hc, List.flatten_cons, List.length_append,
            List.length_cons] at hfuel ⊢
          omega
        simp only [pipeReadWriteCloser.readAll, hstep]
        rw [ih _ { st with chunks := as } (by simp [List.getElem?_set, hlt]) hr hw hm]
        simp [hta]
      · have hstep : c.Read n w
            = some ((a.take n, none),
                w.set c.PipeReader.p { st with chunks := a.drop n :: as }) := by
          have hd2 : ¬ (a.length - n = 0) := by simpa using hd
          simp [pipeReadWriteCloser.Read, pipeRead, hst, hr, hc, hd2]
        have hlen : n < a.length := by
          simp at hd
          omega
        have hm : chunkMeasure (a.drop n :: as) ≤ fuel := by
          simp only [chunkMeasure, hc, List.flatten_cons, List.length_append,
            List.length_cons, List.length_drop] at hfuel ⊢
          omega
        simp only [pipeReadWriteCloser.readAll, hstep]
        rw [ih _ { st with chunks := a.drop n :: as } (by simp [List.getElem?_set, hlt]) hr hw hm]
        simp only [List.flatten_cons, ← List.append_assoc, List.take_append_drop]

theorem pipeRead_blocks (c : pipeReadWriteCloser) (n : Nat) (w : PipeWorld) (st : PipeState)
    (hst : w[c.PipeReader.p]? = some st) (hr : st.rclosed = false) (hw : st.wclosed = false)
    (hc : st.chunks = []) : c.Read n w = none := by
  simp [pipeReadWriteCloser.Read, pipeRead, hst, hr, hw, hc]

theorem write_then_read (x y : pipeReadWriteCloser) (w : PipeWorld) (bytes : Str) (n : Nat)
    (hn : bytes.length ≤ n) (hst : w[x.PipeWriter.p]? = some ⟨[], false, false⟩)
    (hxy : y.PipeReader.p = x.PipeWriter.p) :
    y.Read n (x.Write bytes w).2 = some ((bytes, none), w) := by
  have hlt : x.PipeWriter.p < w.length := (List.getElem?_eq_some_iff.mp hst).1
  have hd : bytes.length - n = 0 := by omega
  have hset : w.set x.PipeWriter.p ⟨[], false, false⟩ = w := by
    apply List.ext_getElem?
    intro i
    by_cases hi : x.PipeWriter.p = i
    · subst hi
      simp [List.getElem?_set, hlt, hst]
    · simp [List.getElem?_set, hi]
  simp [pipeReadWriteCloser.Read, pipeReadWriteCloser.Write, pipeRead, pipeWrite, hst, hxy,
    List.getElem?_set, hlt, hd, List.take_of_length_le hn, hset]

/-- C7: the streams `(a, b)` of `InMemoryPeerConns` are cross-wired: each
one's reader is the read end of the pipe the other writes to, and no stream
reads the pipe it writes to. On the pipe model, whatever is written on one, in
any number of writes, is what repeated reads of the other return, in order
and once, while a read of the writing stream finds nothing and blocks;
writing `"ping"` on `a` and reading on `b` yields `"ping"`. -/
theorem InMemoryPeerConns_peers (w0 : PipeWorld) :
    let a := (InMemoryPeerConns ioModel w0).1.1
    let b := (InMemoryPeerConns ioModel w0).1.2
    let w1 := (InMemoryPeerConns ioModel w0).2
    (a.PipeReader.p = b.PipeWriter.p ∧ b.PipeReader.p = a.PipeWriter.p
      ∧ a.PipeReader.p ≠ a.PipeWriter.p ∧ b.PipeReader.p ≠ b.PipeWriter.p)
    ∧ (∀ (ss : List Str) (n fuel : Nat), 0 < n → chunkMeasure ss ≤ fuel →
        (b.readAll n fuel (a.writeAll ss w1)).1 = ss.flatten
        ∧ a.Read n (a.writeAll ss w1) = none)
    ∧ (∀ (ss : List Str) (n fuel : Nat), 0 < n → chunkMeasure ss ≤ fuel →
        (a.readAll n fuel (b.writeAll ss w1)).1 = ss.flatten
        ∧ b.Read n (b.writeAll ss w1) = none)
    ∧ (∀ (bytes : Str) (n : Nat), bytes.length ≤ n →
        b.Read n (a.Write bytes w1).2 = some ((bytes, none), w1)
        ∧ a.Read n (b.Write bytes w1).2 = some ((bytes, none), w1))
    ∧ b.Read 4 (a.Write "ping".toList w1).2 = some (("ping".toList, none), w1) := by
  intro a b w1
  have ha : a = ⟨⟨w0.length⟩, ⟨w0.length + 1⟩⟩ := by
    simp [a, InMemoryPeerConns, ioModel, ioPipe]
  have hb : b = ⟨⟨w0.length + 1⟩, ⟨w0.length⟩⟩ := by
    simp [b, InMemoryPeerConns, ioModel, ioPipe]
  have hw1 : w1 = w0 ++ [⟨[], false, false⟩, ⟨[], false, false⟩] := by
    simp [w1, InMemoryPeerConns, ioModel, ioPipe]
  have g0 : w1[w0.length]? = some ⟨[], false, false⟩ := by
    rw [hw1, List.getElem?_append_right (le_refl _)]; simp
  have g1 : w1[w0.length + 1]? = some ⟨[], false, false⟩ := by
    rw [hw1, List.getElem?_append_right (by omega)]; simp
  have l0 : w0.length < w1.length := by rw [hw1]; simp
  have l1 : w0.length + 1 < w1.length := by rw [hw1]; simp
  refine ⟨?_, ?_, ?_, ?_, ?_⟩
  · rw [ha, hb]; simp
  · intro ss n fuel hn hfuel
    have hwr := pipeWriteAll_spec a ss w1 ⟨[], false, false⟩ (by rw [ha]; exact g1) rfl rfl
    rw [hwr]
    constructor
    · rw [pipeReadAll_spec b n hn fuel _ ⟨ss, false, false⟩ (by
        rw [ha, hb]; simp [List.getElem?_set, l1]) rfl rfl hfuel]
    · exact pipeRead_blocks a n _ ⟨[], false, false⟩ (by
        rw [ha]; simp [List.getElem?_set, g0]) rfl rfl rfl
  · intro ss n fuel hn hfuel
    have hwr := pipeWriteAll_spec b ss w1 ⟨[], false, false⟩ (by rw [hb]; exact g0) rfl rfl
    rw [hwr]
    constructor
    · rw [pipeReadAll_spec a n hn fuel _ ⟨ss, false, false⟩ (by
        rw [ha, hb]; simp [List.getElem?_set, l0]) rfl rfl hfuel]
    · exact pipeRead_blocks b n _ ⟨[], false, false⟩ (by
        rw [hb]; simp [List.getElem?_set, g1]) rfl rfl rfl
  · intro bytes n hn
    exact ⟨write_then_read a b w1 bytes n hn (by rw [ha]; exact g1) (by rw [ha, hb]),
      write_then_read b a w1 bytes n hn (by rw [hb]; exact g0) (by rw [ha, hb])⟩
  · exact write_then_read a b w1 "ping".toList 4 (le_refl _) (by rw [ha]; exact g1)
      (by rw [ha, hb])

theorem InMemoryPeerConns_peers_witness :
    ((InMemoryPeerConns ioModel []).1.2.readAll 3 8
        ((InMemoryPeerConns ioModel []).1.1.writeAll ["pi".toList, "ng".toList, "pong".toList]
          (InMemoryPeerConns ioModel []).2)).1 = "pingpong".toList
    ∧ (InMemoryPeerConns ioModel []).1.1.Read 3
        ((InMemoryPeerConns ioModel []).1.1.writeAll ["pi".toList, "ng".toList, "pong".toList]
          (InMemoryPeerConns ioModel []).2) = none :=
  ((InMemoryPeerConns_peers []).2.1 ["pi".toList, "ng".toList, "pong".toList] 3 11
    (by decide) (by decide))

/-! ## Registry lemmas -/

theorem Registry.get_set_self {W : Type} (r : Registry W) (m : Str) (f : Factory W) :
    (r.set m f).get m = some f := by
  induction r with
  | nil => simp [Registry.set, Registry.get]
  | cons kv r ih =>
    obtain ⟨k, g⟩ := kv
    by_cases h : k = m
    · simp [Registry.set, Registry.get, h]
    · simp [Registry.set, Registry.get, h, ih]

theorem Registry.get_set_other {W : Type} (r : Registry W) (m m' : Str) (f : Factory W)
    (h : m' ≠ m) : (r.set m f).get m' = r.get m' := by
  induction r with
  | nil =>
    have : ¬ m = m' := fun e => h e.symm
    simp [Registry.set, Registry.get, this]
  | cons kv r ih =>
    obtain ⟨k, g⟩ := kv
    by_cases hk : k = m
    · subst hk
      have : ¬ k = m' := fun e => h e.symm
      simp [Registry.set, Registry.get, this]
    · by_cases hk' : k = m'
      · subst hk'
        simp [Registry.set, Registry.get, h]
      · simp [Registry.set, Registry.get, hk, hk', ih]

/-! ## One loop iteration, case by case -/

theorem registerEntry_skip {W : Type} (lib : Lib W) (environ : List Str) (kv : Str)
    (st : RegState W) (h : ∀ name val, ¬ recognized kv name val) :
    registerEntry lib environ kv st = (none, st) := by
  unfold registerEntry
  split
  · rename_i name val hs
    by_cases hv : val = []
    · simp [hv]
    · by_cases hp : (HasPrefix name envPrefix && !HasSuffix name argsSuffix) = true
      · exfalso
        simp at hp
        exact h name val ⟨hs, hv, hp.1, hp.2⟩
      · simp [hv, hp]
  · rfl

theorem registerEntry_duplicate {W : Type} (lib : Lib W) (environ : List Str) (kv name val : Str)
    (st : RegState W) (h : recognized kv name val) (f : Factory W)
    (hg : st.ServersByMode.get (modeOf lib name) = some f) :
    registerEntry lib environ kv st =
      (some (errAlreadyRegistered lib.Quote name (modeOf lib name)), st) := by
  obtain ⟨hs, hv, hp, hsuf⟩ := h
  unfold modeOf at hg
  simp [registerEntry, hs, hv, hp, hsuf, hg, modeOf]

theorem registerEntry_tcp {W : Type} (lib : Lib W) (environ : List Str) (kv name val : Str)
    (st : RegState W) (h : recognized kv name val)
    (hg : st.ServersByMode.get (modeOf lib name) = none)
    (ht : HasPrefix val tcpScheme = true) :
    registerEntry lib environ kv st =
      (none, { ServersByMode := st.ServersByMode.set (modeOf lib name) (dialFactory lib val),
               log := st.log ++ [logListener (modeOf lib name) val] }) := by
  obtain ⟨hs, hv, hp, hsuf⟩ := h
  unfold modeOf at hg
  simp [registerEntry, hs, hv, hp, hsuf, hg, ht, modeOf]

theorem registerEntry_colon {W : Type} (lib : Lib W) (environ : List Str) (kv name val : Str)
    (st : RegState W) (h : recognized kv name val)
    (hg : st.ServersByMode.get (modeOf lib name) = none)
    (ht : HasPrefix val tcpScheme = false) (hc : Contains val colon = true) :
    registerEntry lib environ kv st = (some (errInvalidURL lib.Quote val), st) := by
  obtain ⟨hs, hv, hp, hsuf⟩ := h
  unfold modeOf at hg
  simp [registerEntry, hs, hv, hp, hsuf, hg, ht, hc]

theorem registerEntry_exec_error {W : Type} (lib : Lib W) (environ : List Str)
    (kv name val : Str) (st : RegState W) (h : recognized kv name val)
    (hg : st.ServersByMode.get (modeOf lib name) = none)
    (ht : HasPrefix val tcpScheme = false) (hc : Contains val colon = false)
    (err : GoError) (hu : companionArgs lib environ name = .error err) :
    registerEntry lib environ kv st = (some (errArgsJSON name err), st) := by
  obtain ⟨hs, hv, hp, hsuf⟩ := h
  unfold modeOf at hg
  unfold companionArgs at hu
  simp only [registerEntry, hs, hv, hp, hsuf, hg, ht, hc, modeOf, hu]
  simp

theorem registerEntry_exec_ok {W : Type} (lib : Lib W) (environ : List Str)
    (kv name val : Str) (st : RegState W) (h : recognized kv name val)
    (hg : st.ServersByMode.get (modeOf lib name) = none)
    (ht : HasPrefix val tcpScheme = false) (hc : Contains val colon = false)
    (args : List Str) (hu : companionArgs lib environ name = .ok args) :
    registerEntry lib environ kv st =
      (none, { ServersByMode := st.ServersByMode.set (modeOf lib name) (execFactory lib val args),
               log := st.log ++ [logExecutable (modeOf lib name) val] }) := by
  obtain ⟨hs, hv, hp, hsuf⟩ := h
  unfold modeOf at hg
  unfold companionArgs at hu
  simp only [registerEntry, hs, hv, hp, hsuf, hg, ht, hc, modeOf, hu]
  simp

/-- What one iteration does for a recognized entry: a duplicate is refused,
a rejected value is refused, and otherwise the entry's own registration is
stored under its mode. In the first two cases the state is unchanged. -/
theorem registerEntry_recognized {W : Type} (lib : Lib W) (environ : List Str)
    (kv name val : Str) (st : RegState W) (h : recognized kv name val) :
    (∃ f, st.ServersByMode.get (modeOf lib name) = some f ∧
      registerEntry lib environ kv st
        = (some (errAlreadyRegistered lib.Quote name (modeOf lib name)), st))
    ∨ (st.ServersByMode.get (modeOf lib name) = none ∧
        entryFactory lib environ name val = none ∧
        ∃ err, registerEntry lib environ kv st = (some err, st))
    ∨ (st.ServersByMode.get (modeOf lib name) = none ∧
        ∃ f rec, entryFactory lib environ name val = some f ∧
          registerEntry lib environ kv st
            = (none, { ServersByMode := st.ServersByMode.set (modeOf lib name) f,
                       log := st.log ++ [rec] })) := by
  cases hg : st.ServersByMode.get (modeOf lib name) with
  | some f => exact Or.inl ⟨f, rfl, registerEntry_duplicate lib environ kv name val st h f hg⟩
  | none =>
    right
    cases ht : HasPrefix val tcpScheme with
    | true =>
      exact Or.inr ⟨rfl, _, _, by simp [entryFactory, ht],
        registerEntry_tcp lib environ kv name val st h hg ht⟩
    | false =>
      cases hc : Contains val colon with
      | true =>
        exact Or.inl ⟨rfl, by simp [entryFactory, ht, hc], _,
          registerEntry_colon lib environ kv name val st h hg ht hc⟩
      | false =>
        cases hu : companionArgs lib environ name with
        | error err =>
          exact Or.inl ⟨rfl, by simp [entryFactory, ht, hc, hu], _,
            registerEntry_exec_error lib environ kv name val st h hg ht hc err hu⟩
        | ok args =>
          exact Or.inr ⟨rfl, _, _, by simp [entryFactory, ht, hc, hu],
            registerEntry_exec_ok lib environ kv name val st h hg ht hc args hu⟩

/-- An entry is either recognized, under one name and value, or skipped. -/
theorem recognized_or_skip (kv : Str) :
    (∃ name val, recognized kv name val) ∨ (∀ name val, ¬ recognized kv name val) := by
  by_cases h : ∃ name val, recognized kv name val
  · exact Or.inl h
  · right
    intro name val hr
    exact h ⟨name, val, hr⟩

theorem recognized_unique (kv name val name' val' : Str) (h : recognized kv name val)
    (h' : recognized kv name' val') : name = name' ∧ val = val' := by
  have := h.1.symm.trans h'.1
  simpa using this

/-- An iteration that returns an error leaves the state as it was. -/
theorem registerEntry_error_state {W : Type} (lib : Lib W) (environ : List Str) (kv : Str)
    (st st1 : RegState W) (err : GoError)
    (h : registerEntry lib environ kv st = (some err, st1)) : st1 = st := by
  rcases recognized_or_skip kv with ⟨name, val, hr⟩ | hs
  · rcases registerEntry_recognized lib environ kv name val st hr with
      ⟨f, _, he⟩ | ⟨_, _, e, he⟩ | ⟨_, f, rec, _, he⟩
    · rw [he] at h; exact (Prod.mk.inj h).2.symm
    · rw [he] at h; exact (Prod.mk.inj h).2.symm
    · rw [he] at h; cases (Prod.mk.inj h).1
  · rw [registerEntry_skip lib environ kv st hs] at h
    cases (Prod.mk.inj h).1

/-- An iteration never replaces a registration. -/
theorem registerEntry_keeps {W : Type} (lib : Lib W) (environ : List Str) (kv : Str)
    (st : RegState W) (m : Str) (f : Factory W) (h : st.ServersByMode.get m = some f) :
    (registerEntry lib environ kv st).2.ServersByMode.get m = some f := by
  rcases recognized_or_skip kv with ⟨name, val, hr⟩ | hs
  · rcases registerEntry_recognized lib environ kv name val st hr with
      ⟨g, _, he⟩ | ⟨_, _, e, he⟩ | ⟨hfree, g, rec, _, he⟩
    · rw [he]; exact h
    · rw [he]; exact h
    · rw [he]
      have hne : m ≠ modeOf lib name := by
        intro e
        rw [e, hfree] at h
        cases h
      simp only [Registry.get_set_other _ _ _ _ hne, h]
  · rw [registerEntry_skip lib environ kv st hs]; exact h

theorem registerLoop_keeps {W : Type} (lib : Lib W) (environ : List Str) (xs : List Str)
    (st : RegState W) (m : Str) (f : Factory W) (h : st.ServersByMode.get m = some f) :
    (registerLoop lib environ xs st).2.ServersByMode.get m = some f := by
  induction xs generalizing st with
  | nil => exact h
  | cons kv rest ih =>
    have hk := registerEntry_keeps lib environ kv st m f h
    rcases hres : registerEntry lib environ kv st with ⟨e, st1⟩
    rw [hres] at hk
    cases e with
    | some err => simp only [registerLoop, hres]; exact hk
    | none => simp only [registerLoop, hres]; exact ih st1 hk

theorem registerLoop_append {W : Type} (lib : Lib W) (environ : List Str) (xs ys : List Str)
    (st : RegState W) :
    registerLoop lib environ (xs ++ ys) st =
      match registerLoop lib environ xs st with
      | (some err, st1) => (some err, st1)
      | (none, st1) => registerLoop lib environ ys st1 := by
  induction xs generalizing st with
  | nil => simp [registerLoop]
  | cons kv rest ih =>
    rcases hres : registerEntry lib environ kv st with ⟨e, st1⟩
    cases e with
    | some err => simp [registerLoop, hres]
    | none => simp [registerLoop, hres, ih]

theorem RegisterServersFromEnv_loop {W : Type} (lib : Lib W) (environ : List Str)
    (st : RegState W) :
    (RegisterServersFromEnv lib environ st).1 = (registerLoop lib environ environ st).1 ∧
    (RegisterServersFromEnv lib environ st).2.ServersByMode
      = (registerLoop lib environ environ st).2.ServersByMode := by
  rcases hres : registerLoop lib environ environ st with ⟨e, st1⟩
  cases e with
  | some err => simp [RegisterServersFromEnv, hres]
  | none =>
    by_cases hl : st1.ServersByMode.length = 0
    · simp [RegisterServersFromEnv, hres, hl]
    · simp [RegisterServersFromEnv, hres, hl]

/-- A recognized entry that the loop passes without error leaves its mode
registered. -/
theorem registerEntry_registers {W : Type} (lib : Lib W) (environ : List Str)
    (kv name val : Str) (st st1 : RegState W) (hr : recognized kv name val)
    (h : registerEntry lib environ kv st = (none, st1)) :
    ∃ f, st1.ServersByMode.get (modeOf lib name) = some f := by
  rcases registerEntry_recognized lib environ kv name val st hr with
    ⟨g, _, he⟩ | ⟨_, _, e, he⟩ | ⟨_, g, rec, _, he⟩
  · rw [he] at h; cases (Prod.mk.inj h).1
  · rw [he] at h; cases (Prod.mk.inj h).1
  · rw [he] at h
    have := (Prod.mk.inj h).2
    subst this
    exact ⟨g, Registry.get_set_self _ _ _⟩

/-! ## connectToServer -/

theorem Registry.get_eq_none_iff {W : Type} (r : Registry W) (m : Str) :
    r.get m = none ↔ ∀ f, (m, f) ∉ r := by
  induction r with
  | nil => simp [Registry.get]
  | cons kv r ih =>
    obtain ⟨k, g⟩ := kv
    by_cases h : k = m
    · subst h
      simp only [Registry.get, if_true]
      constructor
      · intro h; cases h
      · intro h
        exact absurd (List.mem_cons_self _ _) (h g)
    · simp only [Registry.get, h, if_false, ih]
      constructor
      · intro h1 f hf
        rcases List.mem_cons.mp hf with e | e
        · exact h (Prod.mk.inj e).1.symm
        · exact h1 f e
      · intro h1 f hf
        exact h1 f (List.mem_cons_of_mem _ hf)

theorem Registry.mem_of_get {W : Type} (r : Registry W) (m : Str) (f : Factory W)
    (h : r.get m = some f) : (m, f) ∈ r := by
  induction r with
  | nil => simp [Registry.get] at h
  | cons kv r ih =>
    obtain ⟨k, g⟩ := kv
    by_cases hk : k = m
    · subst hk
      simp only [Registry.get, if_true] at h
      cases h
      exact List.mem_cons_self _ _
    · simp only [Registry.get, hk, if_false] at h
      exact List.mem_cons_of_mem _ (ih h)

/-- C1: `connectToServer(m)` on a registry `R`: when `m` is not a key of `R`
(no pair `(m, f)` is in it) the result is a nil stream and the error
`&jsonrpc2.Error{Code: CodeModeNotFound, Message: ...}` whose message ends
with `m` quoted, and the world is untouched, so no factory ran; when `R[m]`
is `f` the result is exactly the result of one call of `f`. -/
theorem connectToServer_lookup {W : Type} (lib : Lib W) (R : Registry W) (m : Str) (s : W) :
    (R.get m = none ↔ ∀ f, (m, f) ∉ R)
    ∧ (R.get m = none →
        connectToServer lib R m s =
          ((none, some (.jsonrpc2 lib.CodeModeNotFound
            ("xlang server proxy: no server registered for mode ".toList ++ lib.Quote m))), s))
    ∧ (∀ f, R.get m = some f → (m, f) ∈ R ∧ connectToServer lib R m s = f s) := by
  refine ⟨Registry.get_eq_none_iff R m, ?_, ?_⟩
  · intro h
    simp [connectToServer, h, errModeNotFound]
  · intro f h
    exact ⟨Registry.mem_of_get R m f h, by simp [connectToServer, h]⟩

theorem connectToServer_lookup_witness :
    (connectToServer traceLib [("go".toList, dialFactory traceLib "tcp://h:1".toList)]
        "rust".toList []).1.2
      = some (.jsonrpc2 (-32000)
          "xlang server proxy: no server registered for mode \"rust\"".toList)
    ∧ (connectToServer traceLib [("go".toList, dialFactory traceLib "tcp://h:1".toList)]
        "rust".toList []).2 = []
    ∧ connectToServer traceLib [("go".toList, dialFactory traceLib "tcp://h:1".toList)]
        "go".toList [] = dialFactory traceLib "tcp://h:1".toList [] := by
  have h1 := (connectToServer_lookup traceLib
    [("go".toList, dialFactory traceLib "tcp://h:1".toList)] "rust".toList []).2.1 rfl
  have h2 := ((connectToServer_lookup traceLib
    [("go".toList, dialFactory traceLib "tcp://h:1".toList)] "go".toList []).2.2 _ rfl).2
  refine ⟨?_, ?_, h2⟩
  · rw [h1]; decide
  · rw [h1]

/-- C8, at the failing input: modes are meant to be case-insensitive and
`RegisterServersFromEnv` stores them lowercased, but `connectToServer` looks
the mode up as given. After `LANGSERVER_GO=tcp://localhost:1234` the registry
holds the mode `go`: connecting as `GO` fails with mode-not-found and touches
nothing, while connecting as its lowercase form `go` dials the listener. -/
theorem connectToServer_case_sensitive :
    (connectToServer traceLib
        (RegisterServersFromEnv traceLib ["LANGSERVER_GO=tcp://localhost:1234".toList]
          RegState.empty).2.ServersByMode "GO".toList []).1.2
      = some (.jsonrpc2 (-32000)
          "xlang server proxy: no server registered for mode \"GO\"".toList)
    ∧ (connectToServer traceLib
        (RegisterServersFromEnv traceLib ["LANGSERVER_GO=tcp://localhost:1234".toList]
          RegState.empty).2.ServersByMode "GO".toList []).2 = []
    ∧ traceLib.ToLower "GO".toList = "go".toList
    ∧ (connectToServer traceLib
        (RegisterServersFromEnv traceLib ["LANGSERVER_GO=tcp://localhost:1234".toList]
          RegState.empty).2.ServersByMode (traceLib.ToLower "GO".toList) []).1.2 = none
    ∧ (connectToServer traceLib
        (RegisterServersFromEnv traceLib ["LANGSERVER_GO=tcp://localhost:1234".toList]
          RegState.empty).2.ServersByMode (traceLib.ToLower "GO".toList) []).2
      = [.dial "tcp".toList "localhost:1234".toList 5] := by
  decide

/-! ## RegisterServersFromEnv -/

/-- The loop up to and including a rejected entry: the error of that entry,
and the state reached before it. -/
theorem registerLoop_stops {W : Type} (lib : Lib W) (environ pre post : List Str) (kv : Str)
    (st0 st1 : RegState W) (err : GoError)
    (hpre : registerLoop lib environ pre st0 = (none, st1))
    (hkv : registerEntry lib environ kv st1 = (some err, st1)) :
    registerLoop lib environ (pre ++ kv :: post) st0 = (some err, st1) := by
  rw [registerLoop_append, hpre]
  simp [registerLoop, hkv]

theorem RegisterServersFromEnv_stops {W : Type} (lib : Lib W) (pre post : List Str) (kv : Str)
    (st0 st1 : RegState W) (err : GoError)
    (hpre : registerLoop lib (pre ++ kv :: post) pre st0 = (none, st1))
    (hkv : registerEntry lib (pre ++ kv :: post) kv st1 = (some err, st1)) :
    RegisterServersFromEnv lib (pre ++ kv :: post) st0 = (some err, st1) := by
  have h := registerLoop_stops lib (pre ++ kv :: post) pre post kv st0 st1 err hpre hkv
  simp [RegisterServersFromEnv, h]

theorem errInvalidURL_names_fix (quote : Str → Str) (val : Str) :
    (tcpScheme ++ val) <:+: (errInvalidURL quote val).message := by
  refine ⟨"invalid language server URL ".toList ++ quote val
    ++ " (you probably mean \"".toList, "\")".toList, ?_⟩
  simp [errInvalidURL, GoError.message]

/-- C3: when the loop reaches a recognized entry whose mode is not yet
registered, a value that contains `:` and does not start with `tcp://` makes
`RegisterServersFromEnv` return an error whose message contains `tcp://`
followed by the value, and the mode stays unregistered; a value that starts
with `tcp://` passes the iteration without error and is registered as a TCP
listener. -/
theorem RegisterServersFromEnv_tcp_scheme {W : Type} (lib : Lib W) (pre post : List Str)
    (kv name val : Str) (st0 st1 : RegState W)
    (hpre : registerLoop lib (pre ++ kv :: post) pre st0 = (none, st1))
    (hrec : recognized kv name val)
    (hfree : st1.ServersByMode.get (modeOf lib name) = none) :
    (HasPrefix val tcpScheme = false → Contains val colon = true →
      (RegisterServersFromEnv lib (pre ++ kv :: post) st0).1
          = some (errInvalidURL lib.Quote val)
        ∧ (tcpScheme ++ val) <:+: (errInvalidURL lib.Quote val).message
        ∧ (RegisterServersFromEnv lib (pre ++ kv :: post) st0).2.ServersByMode.get
            (modeOf lib name) = none)
    ∧ (HasPrefix val tcpScheme = true →
        (registerEntry lib (pre ++ kv :: post) kv st1).1 = none
        ∧ (RegisterServersFromEnv lib (pre ++ kv :: post) st0).2.ServersByMode.get
            (modeOf lib name) = some (dialFactory lib val)) := by
  constructor
  · intro ht hc
    have hkv := registerEntry_colon lib (pre ++ kv :: post) kv name val st1 hrec hfree ht hc
    rw [RegisterServersFromEnv_stops lib pre post kv st0 st1 _ hpre hkv]
    exact ⟨rfl, errInvalidURL_names_fix _ _, hfree⟩
  · intro ht
    have hkv := registerEntry_tcp lib (pre ++ kv :: post) kv name val st1 hrec hfree ht
    refine ⟨by rw [hkv], ?_⟩
    rw [(RegisterServersFromEnv_loop lib (pre ++ kv :: post) st0).2, registerLoop_append, hpre]
    simp only [registerLoop, hkv]
    exact registerLoop_keeps lib _ post _ _ _ (Registry.get_set_self _ _ _)

/-- C9, amended: when the loop reaches a recognized entry whose mode is not
yet registered and whose value is an executable path (no `tcp://` prefix, no
`:`), if the companion variable `<name>_ARGS_JSON` is non-empty and
`json.Unmarshal` into the string slice returns an error for it,
`RegisterServersFromEnv` returns an error built from it and the mode stays
unregistered. -/
theorem RegisterServersFromEnv_args_error {W : Type} (lib : Lib W) (pre post : List Str)
    (kv name val : Str) (st0 st1 : RegState W) (err : GoError)
    (hpre : registerLoop lib (pre ++ kv :: post) pre st0 = (none, st1))
    (hrec : recognized kv name val)
    (hfree : st1.ServersByMode.get (modeOf lib name) = none)
    (ht : HasPrefix val tcpScheme = false) (hc : Contains val colon = false)
    (hv : Getenv (pre ++ kv :: post) (name ++ argsSuffix) ≠ [])
    (hu : lib.Unmarshal (Getenv (pre ++ kv :: post) (name ++ argsSuffix)) = .error err) :
    (RegisterServersFromEnv lib (pre ++ kv :: post) st0).1 = some (errArgsJSON name err)
    ∧ (RegisterServersFromEnv lib (pre ++ kv :: post) st0).2.ServersByMode.get
        (modeOf lib name) = none := by
  have hca : companionArgs lib (pre ++ kv :: post) name = .error err := by
    simp [companionArgs, hv, hu]
  have hkv := registerEntry_exec_error lib (pre ++ kv :: post) kv name val st1 hrec hfree ht hc
    err hca
  rw [RegisterServersFromEnv_stops lib pre post kv st0 st1 _ hpre hkv]
  exact ⟨rfl, hfree⟩

theorem RegisterServersFromEnv_tcp_scheme_witness :
    (RegisterServersFromEnv traceLib ["PATH=/bin".toList, "LANGSERVER_GO=localhost:1234".toList]
        RegState.empty).1 = some (errInvalidURL traceLib.Quote "localhost:1234".toList)
    ∧ (tcpScheme ++ "localhost:1234".toList)
        <:+: (errInvalidURL traceLib.Quote "localhost:1234".toList).message
    ∧ (RegisterServersFromEnv traceLib
        ["PATH=/bin".toList, "LANGSERVER_GO=localhost:1234".toList]
        RegState.empty).2.ServersByMode.get (modeOf traceLib "LANGSERVER_GO".toList) = none :=
  (RegisterServersFromEnv_tcp_scheme traceLib ["PATH=/bin".toList] []
    "LANGSERVER_GO=localhost:1234".toList "LANGSERVER_GO".toList "localhost:1234".toList
    RegState.empty RegState.empty rfl (by decide) rfl).1 (by decide) (by decide)

theorem RegisterServersFromEnv_args_error_witness :
    (RegisterServersFromEnv traceLib
        ["LANGSERVER_TS_ARGS_JSON=[\"-v\"".toList, "LANGSERVER_TS=/usr/bin/ts".toList]
        RegState.empty).1
      = some (errArgsJSON "LANGSERVER_TS".toList (.other "json: syntax error".toList))
    ∧ (RegisterServersFromEnv traceLib
        ["LANGSERVER_TS_ARGS_JSON=[\"-v\"".toList, "LANGSERVER_TS=/usr/bin/ts".toList]
        RegState.empty).2.ServersByMode.get (modeOf traceLib "LANGSERVER_TS".toList) = none :=
  RegisterServersFromEnv_args_error traceLib ["LANGSERVER_TS_ARGS_JSON=[\"-v\"".toList] []
    "LANGSERVER_TS=/usr/bin/ts".toList "LANGSERVER_TS".toList "/usr/bin/ts".toList
    RegState.empty RegState.empty (.other "json: syntax error".toList) rfl (by decide) rfl
    (by decide) (by decide) (by decide) rfl

/-- The companion variable holds `null`: it is not a JSON array of strings,
yet decoding succeeds with no arguments and the mode is registered. -/
theorem RegisterServersFromEnv_null_args :
    recognized "LANGSERVER_TS=/usr/bin/ts".toList "LANGSERVER_TS".toList "/usr/bin/ts".toList
    ∧ HasPrefix "/usr/bin/ts".toList tcpScheme = false
    ∧ Contains "/usr/bin/ts".toList colon = false
    ∧ Getenv ["LANGSERVER_TS=/usr/bin/ts".toList, "LANGSERVER_TS_ARGS_JSON=null".toList]
        ("LANGSERVER_TS".toList ++ argsSuffix) = "null".toList
    ∧ isJSONArrayOfStrings "null".toList = false
    ∧ (RegisterServersFromEnv traceLib
        ["LANGSERVER_TS=/usr/bin/ts".toList, "LANGSERVER_TS_ARGS_JSON=null".toList]
        RegState.empty).1 = none
    ∧ ((RegisterServersFromEnv traceLib
        ["LANGSERVER_TS=/usr/bin/ts".toList, "LANGSERVER_TS_ARGS_JSON=null".toList]
        RegState.empty).2.ServersByMode.get "ts".toList).isSome = true := by
  decide

/-! ## The first entry of a mode -/

theorem firstEntry_append {W : Type} (lib : Lib W) (m : Str) (xs ys : List Str) :
    firstEntry lib m (xs ++ ys) =
      match firstEntry lib m xs with
      | some x => some x
      | none => firstEntry lib m ys := by
  induction xs with
  | nil => simp [firstEntry]
  | cons kv rest ih =>
    simp only [List.cons_append, firstEntry]
    split
    · split
      · rfl
      · exact ih
    · exact ih

theorem firstEntry_cons_recognized {W : Type} (lib : Lib W) (m : Str) (kv name val : Str)
    (rest : List Str) (h : recognized kv name val) :
    firstEntry lib m (kv :: rest) =
      if modeOf lib name = m then some (name, val) else firstEntry lib m rest := by
  obtain ⟨hs, hv, hp, hsuf⟩ := h
  simp [firstEntry, hs, hv, hp, hsuf]

theorem firstEntry_cons_skip {W : Type} (lib : Lib W) (m : Str) (kv : Str) (rest : List Str)
    (h : ∀ name val, ¬ recognized kv name val) :
    firstEntry lib m (kv :: rest) = firstEntry lib m rest := by
  simp only [firstEntry]
  split
  · rename_i name val hs
    split
    · rename_i hc
      exact absurd ⟨hs, hc.1, hc.2.1, hc.2.2.1⟩ (h name val)
    · rfl
  · rfl

theorem firstEntry_mono {W : Type} (lib : Lib W) (m : Str) (xs ys : List Str) (x : Str × Str)
    (h : firstEntry lib m xs = some x) : firstEntry lib m (xs ++ ys) = some x := by
  rw [firstEntry_append, h]

/-- Whatever the loop has registered under a mode was made by the first
recognized entry of that mode. -/
theorem registerLoop_first {W : Type} (lib : Lib W) (environ : List Str) (xs seen : List Str)
    (st : RegState W)
    (hP : ∀ m f, st.ServersByMode.get m = some f →
      ∃ name val, firstEntry lib m seen = some (name, val) ∧
        entryFactory lib environ name val = some f)
    (hQ : ∀ m, st.ServersByMode.get m = none → firstEntry lib m seen = none) :
    ∀ m f, (registerLoop lib environ xs st).2.ServersByMode.get m = some f →
      ∃ name val, firstEntry lib m (seen ++ xs) = some (name, val) ∧
        entryFactory lib environ name val = some f := by
  induction xs generalizing seen st with
  | nil =>
    intro m f h
    simpa using hP m f h
  | cons kv rest ih =>
    have hstop : ∀ m f, st.ServersByMode.get m = some f →
        ∃ name val, firstEntry lib m (seen ++ kv :: rest) = some (name, val) ∧
          entryFactory lib environ name val = some f := by
      intro m f h
      obtain ⟨name, val, h1, h2⟩ := hP m f h
      exact ⟨name, val, firstEntry_mono lib m seen _ _ h1, h2⟩
    have hassoc : seen ++ kv :: rest = (seen ++ [kv]) ++ rest := by simp
    rcases recognized_or_skip kv with ⟨name, val, hr⟩ | hs
    · rcases registerEntry_recognized lib environ kv name val st hr with
        ⟨g, _, he⟩ | ⟨_, _, e, he⟩ | ⟨hfree, g, rec, hg, he⟩
      · simp only [registerLoop, he]; exact hstop
      · simp only [registerLoop, he]; exact hstop
      · simp only [registerLoop, he]
        rw [hassoc]
        apply ih
        · intro m f h
          by_cases hm : m = modeOf lib name
          · subst hm
            rw [Registry.get_set_self] at h
            cases h
            refine ⟨name, val, ?_, hg⟩
            rw [firstEntry_append, hQ _ hfree, firstEntry_cons_recognized lib _ kv name val [] hr]
            simp
          · rw [Registry.get_set_other _ _ _ _ hm] at h
            obtain ⟨n1, v1, h1, h2⟩ := hP m f h
            exact ⟨n1, v1, firstEntry_mono lib m seen _ _ h1, h2⟩
        · intro m h
          have hm : m ≠ modeOf lib name := by
            intro e
            rw [e, Registry.get_set_self] at h
            cases h
          rw [Registry.get_set_other _ _ _ _ hm] at h
          rw [firstEntry_append, hQ m h, firstEntry_cons_recognized lib _ kv name val [] hr]
          have hm2 : ¬ modeOf lib name = m := fun e => hm e.symm
          simp [firstEntry, hm2]
    · simp only [registerLoop, registerEntry_skip lib environ kv st hs]
      rw [hassoc]
      apply ih
      · intro m f h
        obtain ⟨n1, v1, h1, h2⟩ := hP m f h
        exact ⟨n1, v1, firstEntry_mono lib m seen _ _ h1, h2⟩
      · intro m h
        rw [firstEntry_append, hQ m h, firstEntry_cons_skip lib m kv [] hs]
        simp [firstEntry]

/-- Two recognized entries of one mode: the loop returns an error. -/
theorem registerLoop_two_entries {W : Type} (lib : Lib W) (environ : List Str)
    (pre mid post : List Str) (kvi kvj namei vali namej valj : Str) (st : RegState W)
    (hi : recognized kvi namei vali) (hj : recognized kvj namej valj)
    (hmode : modeOf lib namei = modeOf lib namej) :
    ∃ err, (registerLoop lib environ (pre ++ kvi :: (mid ++ kvj :: post)) st).1 = some err := by
  rw [registerLoop_append]
  rcases h1 : registerLoop lib environ pre st with ⟨e1, st1⟩
  cases e1 with
  | some err => exact ⟨err, rfl⟩
  | none =>
    simp only [registerLoop]
    rcases h2 : registerEntry lib environ kvi st1 with ⟨e2, st2⟩
    cases e2 with
    | some err => exact ⟨err, rfl⟩
    | none =>
      simp only []
      obtain ⟨f, hf⟩ := registerEntry_registers lib environ kvi namei vali st1 st2 hi h2
      rw [registerLoop_append]
      have hk := registerLoop_keeps lib environ mid st2 _ f hf
      rcases h3 : registerLoop lib environ mid st2 with ⟨e3, st3⟩
      rw [h3] at hk
      cases e3 with
      | some err => exact ⟨err, rfl⟩
      | none =>
        simp only [registerLoop]
        rw [hmode] at hk
        rw [registerEntry_duplicate lib environ kvj namej valj st3 hj f hk]
        exact ⟨_, rfl⟩

/-- C2: an environment list that holds two recognized entries whose modes
lowercase to the same string, the entry `kvi` before the entry `kvj` with
anything around them: `RegisterServersFromEnv` started on the empty registry
returns an error, and a registration held for that mode afterwards was made
by the first recognized entry of that mode, which is `kvi` or stands before
it; it is the one made by `kvi` when no entry of that mode stands before
`kvi`. -/
theorem RegisterServersFromEnv_duplicate_mode {W : Type} (lib : Lib W)
    (pre mid post : List Str) (kvi kvj namei vali namej valj : Str)
    (hi : recognized kvi namei vali) (hj : recognized kvj namej valj)
    (hmode : modeOf lib namei = modeOf lib namej) :
    (∃ err, (RegisterServersFromEnv lib (pre ++ kvi :: (mid ++ kvj :: post))
        RegState.empty).1 = some err)
    ∧ (∀ f, (RegisterServersFromEnv lib (pre ++ kvi :: (mid ++ kvj :: post))
          RegState.empty).2.ServersByMode.get (modeOf lib namei) = some f →
        ∃ name val, firstEntry lib (modeOf lib namei) (pre ++ [kvi]) = some (name, val) ∧
          entryFactory lib (pre ++ kvi :: (mid ++ kvj :: post)) name val = some f)
    ∧ (firstEntry lib (modeOf lib namei) pre = none →
        ∀ f, (RegisterServersFromEnv lib (pre ++ kvi :: (mid ++ kvj :: post))
          RegState.empty).2.ServersByMode.get (modeOf lib namei) = some f →
          entryFactory lib (pre ++ kvi :: (mid ++ kvj :: post)) namei vali = some f) := by
  have hloop := RegisterServersFromEnv_loop lib (pre ++ kvi :: (mid ++ kvj :: post))
    (RegState.empty : RegState W)
  have hfirst : ∀ f, (RegisterServersFromEnv lib (pre ++ kvi :: (mid ++ kvj :: post))
        RegState.empty).2.ServersByMode.get (modeOf lib namei) = some f →
      ∃ name val, firstEntry lib (modeOf lib namei) (pre ++ [kvi]) = some (name, val) ∧
        entryFactory lib (pre ++ kvi :: (mid ++ kvj :: post)) name val = some f := by
    intro f hf
    rw [hloop.2] at hf
    obtain ⟨name, val, h1, h2⟩ := registerLoop_first lib _ _ [] RegState.empty
      (by intro m f h; simp [RegState.empty, Registry.get] at h)
      (by intro m _; rfl) _ f hf
    refine ⟨name, val, ?_, h2⟩
    have hsome : ∃ x, firstEntry lib (modeOf lib namei) (pre ++ [kvi]) = some x := by
      rw [firstEntry_append]
      cases firstEntry lib (modeOf lib namei) pre with
      | some x => exact ⟨x, rfl⟩
      | none =>
        simp only [firstEntry_cons_recognized lib _ kvi namei vali [] hi, if_true]
        exact ⟨_, rfl⟩
    obtain ⟨x, hx⟩ := hsome
    have hx2 := firstEntry_mono lib (modeOf lib namei) (pre ++ [kvi]) (mid ++ kvj :: post) x hx
    have hl : (pre ++ [kvi]) ++ (mid ++ kvj :: post) = pre ++ kvi :: (mid ++ kvj :: post) := by
      simp
    rw [hl] at hx2
    simp only [List.nil_append] at h1
    rw [hx2] at h1
    rw [hx, h1]
  refine ⟨?_, hfirst, ?_⟩
  · rw [hloop.1]
    exact registerLoop_two_entries lib _ pre mid post kvi kvj namei vali namej valj _ hi hj hmode
  · intro hpre f hf
    obtain ⟨name, val, h1, h2⟩ := hfirst f hf
    rw [firstEntry_append, hpre, firstEntry_cons_recognized lib _ kvi namei vali [] hi] at h1
    simp at h1
    rw [h1.1, h1.2]
    exact h2

theorem RegisterServersFromEnv_duplicate_mode_witness :
    (∃ err, (RegisterServersFromEnv traceLib
        ([] ++ "LANGSERVER_GO=tcp://a:1".toList
          :: (["PATH=/bin".toList] ++ "LANGSERVER_go=/bin/gols".toList :: []))
        RegState.empty).1 = some err)
    ∧ ((RegisterServersFromEnv traceLib
        ([] ++ "LANGSERVER_GO=tcp://a:1".toList
          :: (["PATH=/bin".toList] ++ "LANGSERVER_go=/bin/gols".toList :: []))
        RegState.empty).2.ServersByMode.get "go".toList).isSome = true :=
  ⟨(RegisterServersFromEnv_duplicate_mode traceLib [] ["PATH=/bin".toList] []
      "LANGSERVER_GO=tcp://a:1".toList "LANGSERVER_go=/bin/gols".toList
      "LANGSERVER_GO".toList "tcp://a:1".toList "LANGSERVER_go".toList "/bin/gols".toList
      (by decide) (by decide) (by decide)).1, by decide⟩

end Proxy
